import Mathlib

/-!
# OCI registry fetcher: embedding of `metadata/fetcher/registry.go`

The Go functions of `registry.go` are embedded as Lean functions of the same
name.  Conventions of the embedding:

* a Go `string` / `[]byte` is a list of bytes (`GoString`, `Bytes`);
* an `int64` is an `Int`; the one place where the source can overflow
  (`maxLength+1`) and the conversion `int64(len(data))` go through `wrapInt64`;
* a Go `(value, error)` result is an `Except Error value`;
* the collaborators (`v1.Image`, `v1.Layer`, `crane.Pull`) are records of the
  results their methods give; every function that talks to a collaborator also
  returns the list of collaborator calls it made, in order (`Call`);
* the fetcher state (the image cache) is passed explicitly.
-/

set_option linter.dupNamespace false

deriving instance DecidableEq for Except

namespace Fetcher

/-! ## Go strings and the library functions the source calls -/

/-- Go `string`: an immutable sequence of bytes. -/
abbrev GoString := List UInt8

/-- Go `[]byte`. -/
abbrev Bytes := List UInt8

/-- The bytes of an ASCII string literal. -/
def ascii (s : String) : GoString := s.data.map (fun c => UInt8.ofNat c.toNat)

/-- The byte '/'. -/
def slash : UInt8 := 47

/-- The byte ':'. -/
def colon : UInt8 := 58

namespace strings

/-- Go `strings.HasPrefix(s, prefix)`. -/
def HasPrefix (s pre : GoString) : Bool := pre.isPrefixOf s

/-- Go `strings.Index(s, substr)`: the index of the first occurrence of `substr`
in `s`; `none` stands for the result `-1`. -/
def Index : GoString → GoString → Option Nat
  | [], substr => if substr = [] then some 0 else none
  | c :: s, substr =>
    if HasPrefix (c :: s) substr then some 0
    else (Index s substr).map (fun i => i + 1)

/-- Go `strings.Contains(s, substr)`, which is `Index(s, substr) >= 0`. -/
def Contains (s substr : GoString) : Bool := (Index s substr).isSome

/-- Go `strings.TrimPrefix(s, prefix)`: `s` without the leading `prefix`, or `s`
itself when it does not start with `prefix`. -/
def TrimPrefix (s pre : GoString) : GoString :=
  if HasPrefix s pre then s.drop pre.length else s

/-- Go `strings.Cut(s, sep)`: `(before, after, found)` around the first `sep`;
`(s, "", false)` when `sep` does not occur. -/
def Cut (s sep : GoString) : GoString × GoString × Bool :=
  match Index s sep with
  | some i => (s.take i, s.drop (i + sep.length), true)
  | none => (s, [], false)

end strings

namespace path

/-- Go `path.Base(path)`: the last element of the path.  Trailing slashes are
removed before extracting the last element; the empty path gives ".", a path
of slashes only gives "/". -/
def Base (p : GoString) : GoString :=
  if p = [] then ascii "."
  else
    -- strip trailing slashes
    let p1 := (p.reverse.dropWhile (fun b => b == slash)).reverse
    -- keep what follows the last slash
    let p2 := (p1.reverse.takeWhile (fun b => b != slash)).reverse
    if p2 = [] then ascii "/" else p2

end path

/-- Go `fmt.Sprintf("%s:%s", a, b)`. -/
def Sprintf_s_colon_s (a b : GoString) : GoString := a ++ colon :: b

/-- Conversion of a mathematical integer to `int64` (two's complement wrap). -/
def wrapInt64 (x : Int) : Int := (x + 2 ^ 63) % 2 ^ 64 - 2 ^ 63

/-- Go `math.MaxInt64`. -/
def MaxInt64 : Int := 2 ^ 63 - 1

/-! ## Errors -/

/-- The error values the fetcher returns or passes on. -/
inductive Error where
  /-- Go value `&metadata.ErrDownloadLengthMismatch{Msg: ...}`; the two numbers are the
  ones formatted into the message. -/
  | ErrDownloadLengthMismatch (length maxLength : Int)
  /-- Go value `&metadata.ErrDownloadHTTP{StatusCode: ...}`. -/
  | ErrDownloadHTTP (StatusCode : Nat)
  /-- Go value `fmt.Errorf("urlPath: %s must be in metadata or targets repo", urlPath)`. -/
  | invalidUrlPath (urlPath : GoString)
  /-- Go value `fmt.Errorf("file %s not found in image", name)`. -/
  | fileNotFound (name : GoString)
  /-- An error of `v1.NewHash` for the digest string given. -/
  | hashParse (s : GoString)
  /-- An error produced by a collaborator (registry, image, layer, stream, JSON
  decoder), identified by a number. -/
  | external (code : Nat)
  deriving DecidableEq

/-- Go `http.StatusNotFound`. -/
def StatusNotFound : Nat := 404

/-! ## Collaborators -/

namespace v1

/-- Type `v1.Hash` of go-containerregistry. -/
structure Hash where
  Algorithm : GoString
  Hex : GoString
  deriving DecidableEq

/-- Lower-case hexadecimal digit, the cutset "0123456789abcdef". -/
def isLowerHex (b : UInt8) : Bool := (48 ≤ b && b ≤ 57) || (97 ≤ b && b ≤ 102)

/-- Function `v1.NewHash` of go-containerregistry: parses "algorithm:hex"; the
only algorithm is "sha256", whose hex part has 64 digits. -/
def NewHash (s : GoString) : Except Error Hash :=
  match strings.Cut s [colon] with
  | (algo, body, ok) =>
    if !ok || algo = [] || body = [] then .error (.hashParse s)
    else if body.dropWhile isLowerHex ≠ [] then .error (.hashParse s)
    else if algo ≠ ascii "sha256" then .error (.hashParse s)
    else if body.length ≠ 64 then .error (.hashParse s)
    else .ok ⟨algo, body⟩

end v1

namespace io

/-- An `io.Reader` as its consumer observes it: the bytes it yields, and how it
ends after them: `none` for `io.EOF`, `some e` for a read error `e` reported
by the `Read` call that follows the last byte.  A reader that never ends
behaves under `LimitReader r n` like any of its prefixes of at least `n`
bytes.  A reader that hands over its read error in the same `Read` call as its
last byte is not represented; it differs from the represented one only when
the limit of `LimitReader` equals the number of its bytes, where the code gets
the error instead of the bytes. -/
structure Reader where
  bytes : Bytes
  err : Option Error

/-- Go `io.LimitReader(r, n)`: reads from `r` but stops with EOF after `n`
bytes; with `n <= 0` the first `Read` already returns EOF. -/
def LimitReader (r : Reader) (n : Int) : Reader :=
  if n ≤ 0 then ⟨[], none⟩
  else if (r.bytes.length : Int) < n then r
  else ⟨r.bytes.take n.toNat, none⟩

/-- Go `io.ReadAll(r)`: everything read until EOF (then the error is nil) or
until the first error. -/
def ReadAll (r : Reader) : Bytes × Option Error := (r.bytes, r.err)

end io

namespace v1

/-- Interface `v1.Layer`, by the results of the two methods the source calls. -/
structure Layer where
  Size : Except Error Int
  Uncompressed : Except Error io.Reader

end v1

/-- Struct `Layer` declared inside `findFileInManifest`: one layer record of
the manifest.  The Go map `Annotations` is an association list; a nil map is
the empty list. -/
structure Layer where
  Annotations : List (GoString × GoString)
  Digest : GoString
  deriving DecidableEq

/-- Struct `Layers` declared inside `findFileInManifest`. -/
structure Layers where
  Layers : List Layer
  deriving DecidableEq

/-- The raw manifest bytes an image returns, represented by what
`json.Unmarshal` makes of them for the target type `Layers`. -/
structure RawManifest where
  decoded : Except Error Layers

namespace json

/-- Go `json.Unmarshal(mf, l)` for `l : *Layers`. -/
def Unmarshal (mf : RawManifest) : Except Error Layers := mf.decoded

end json

namespace v1

/-- Interface `v1.Image`, by the results of the two methods the source calls. -/
structure Image where
  RawManifest : Except Error Fetcher.RawManifest
  LayerByDigest : Hash → Except Error Layer

end v1

/-- A call made to a collaborator. -/
inductive Call where
  /-- Call `crane.Pull(imgRef, ...)`. -/
  | Pull (imgRef : GoString)
  /-- Call `img.RawManifest()`. -/
  | RawManifest
  /-- Call `img.LayerByDigest(h)`. -/
  | LayerByDigest (h : v1.Hash)
  /-- Call `fileLayer.Size()`. -/
  | Size
  /-- Call `fileLayer.Uncompressed()`. -/
  | Uncompressed
  /-- Reading the content stream through `io.LimitReader(content, limit)`. -/
  | Read (limit : Int)
  deriving DecidableEq

/-! ## The source -/

/-- Constant `TufFileNameAnnotation`. -/
def TufFileNameAnnotation : GoString := ascii "tuf.io/filename"

/-- Type `ImageCache`: the Go map from image reference to image. -/
structure ImageCache where
  cache : GoString → Option v1.Image

/-- Function `NewImageCache`. -/
def NewImageCache : ImageCache := ⟨fun _ => none⟩

/-- Function `ImageCache.Get`: `some img` is `(img, true)`, `none` is `(nil, false)`. -/
def ImageCache.Get (c : ImageCache) (imgRef : GoString) : Option v1.Image :=
  c.cache imgRef

/-- Function `ImageCache.Put`. -/
def ImageCache.Put (c : ImageCache) (imgRef : GoString) (img : v1.Image) : ImageCache :=
  ⟨fun r => if r = imgRef then some img else c.cache r⟩

/-- Type `RegistryFetcher`. -/
structure RegistryFetcher where
  httpUserAgent : GoString
  metadataRepo : GoString
  metadataTag : GoString
  targetsRepo : GoString
  cache : ImageCache

/-- Function `NewRegistryFetcher`. -/
def NewRegistryFetcher (metadataRepo metadataTag targetsRepo : GoString) : RegistryFetcher :=
  { httpUserAgent := [], metadataRepo := metadataRepo, metadataTag := metadataTag,
    targetsRepo := targetsRepo, cache := NewImageCache }

/-- Function `getDataFromLayer`: the result, and the collaborator calls made. -/
def getDataFromLayer (img : v1.Image) (layerHash : v1.Hash) (maxLength : Int) :
    Except Error Bytes × List Call :=
  match img.LayerByDigest layerHash with
  | .error err => (.error err, [.LayerByDigest layerHash])
  | .ok fileLayer =>
    match fileLayer.Size with
    | .error err => (.error err, [.LayerByDigest layerHash, .Size])
    | .ok length =>
      -- Error if the reported size is greater than what is expected.
      if length > maxLength then
        (.error (.ErrDownloadLengthMismatch length maxLength),
          [.LayerByDigest layerHash, .Size])
      else
        match fileLayer.Uncompressed with
        | .error err => (.error err, [.LayerByDigest layerHash, .Size, .Uncompressed])
        | .ok content =>
          let limit := wrapInt64 (maxLength + 1)
          let calls := [.LayerByDigest layerHash, .Size, .Uncompressed, .Read limit]
          match io.ReadAll (io.LimitReader content limit) with
          | (_, some err) => (.error err, calls)
          | (data, none) =>
            -- Error if the reported size is greater than what is expected.
            let length := wrapInt64 data.length
            if length > maxLength then
              (.error (.ErrDownloadLengthMismatch length maxLength), calls)
            else (.ok data, calls)

/-- Function `RegistryFetcher.parseUrlPath`: `(imgRef, fileName)` or the error. -/
def RegistryFetcher.parseUrlPath (d : RegistryFetcher) (urlPath : GoString) :
    Except Error (GoString × GoString) :=
  -- Check if repo is target or metadata
  if strings.Contains urlPath d.targetsRepo then
    let target := strings.TrimPrefix urlPath (d.targetsRepo ++ [slash])
    match strings.Cut target [slash] with
    | (subdir, name, true) => .ok (Sprintf_s_colon_s d.targetsRepo subdir, name)
    | (_, _, false) => .ok (Sprintf_s_colon_s d.targetsRepo target, target)
  else if strings.Contains urlPath d.metadataRepo then
    -- build the metadata image name
    .ok (Sprintf_s_colon_s d.metadataRepo d.metadataTag, path.Base urlPath)
  else .error (.invalidUrlPath urlPath)

/-- Go map index expression `m[k]` on a `map[string]string`: the zero value ""
when the key is absent. -/
def mapIndex (m : List (GoString × GoString)) (k : GoString) : GoString :=
  (m.lookup k).getD []

/-- The loop of `findFileInManifest`: `layerDigest` starts as "" and takes the
digest of the first layer whose annotation equals `name`, then the loop
breaks. -/
def scanLayers (layers : List Layer) (name : GoString) : GoString :=
  match layers with
  | [] => []
  | layer :: rest =>
    if mapIndex layer.Annotations TufFileNameAnnotation = name then layer.Digest
    else scanLayers rest name

/-- Function `findFileInManifest`: the result, and the collaborator calls made. -/
def findFileInManifest (img : v1.Image) (name : GoString) :
    Except Error v1.Hash × List Call :=
  -- unmarshal manifest layers with annotations
  match img.RawManifest with
  | .error err => (.error err, [.RawManifest])
  | .ok mf =>
    match json.Unmarshal mf with
    | .error err => (.error err, [.RawManifest])
    | .ok l =>
      -- find layer annotation with file name
      let layerDigest := scanLayers l.Layers name
      if layerDigest = [] then (.error (.fileNotFound name), [.RawManifest])
      else
        -- return layer digest as v1.Hash
        match v1.NewHash layerDigest with
        | .error err => (.error err, [.RawManifest])
        | .ok hash => (.ok hash, [.RawManifest])

/-- The registry behind `crane.Pull`: the result of pulling a reference with
the given user agent and timeout. -/
structure Registry where
  Pull : (imgRef userAgent : GoString) → (timeout : Int) → Except Error v1.Image

/-- The part of `DownloadFile` after the image has been obtained (lines 88-100
of the source): `calls` are the collaborator calls made so far. -/
def downloadFromImage (d : RegistryFetcher) (img : v1.Image) (fileName : GoString)
    (maxLength : Int) (calls : List Call) : Except Error Bytes × RegistryFetcher × List Call :=
  -- Search image manifest for file
  match findFileInManifest img fileName with
  | (.error _, calls2) => (.error (.ErrDownloadHTTP StatusNotFound), d, calls ++ calls2)
  | (.ok hash, calls2) =>
    -- Get data from image layer
    match getDataFromLayer img hash maxLength with
    | (.error err, calls3) => (.error err, d, calls ++ calls2 ++ calls3)
    | (.ok data, calls3) => (.ok data, d, calls ++ calls2 ++ calls3)

/-- Function `RegistryFetcher.DownloadFile`: the result, the fetcher after the call, and
the collaborator calls made. -/
def RegistryFetcher.DownloadFile (reg : Registry) (d : RegistryFetcher) (urlPath : GoString)
    (maxLength : Int) (timeout : Int) : Except Error Bytes × RegistryFetcher × List Call :=
  match d.parseUrlPath urlPath with
  | .error err => (.error err, d, [])
  | .ok (imgRef, fileName) =>
    -- Check cache for image and pull if not found
    match d.cache.Get imgRef with
    | some img => downloadFromImage d img fileName maxLength []
    | none =>
      -- Pull the image from registry
      match reg.Pull imgRef d.httpUserAgent timeout with
      | .error err => (.error err, d, [.Pull imgRef])
      | .ok img =>
        -- Cache the image
        downloadFromImage { d with cache := d.cache.Put imgRef img } img fileName maxLength
          [.Pull imgRef]

/-! ## The resolver rules in the words of the specification -/

/-- The targets rule of the specification (section 4.1, step 1): strip the
prefix `targetsRepoName + "/"`, split the remainder on the first "/"; if a "/"
is found the part before it is the tag and the part after it the file name,
otherwise the whole remainder is both.  Gives `(imageRef, fileName)`. -/
def specTargetsRule (targetsRepoName logicalPath : GoString) : GoString × GoString :=
  let remainder :=
    if targetsRepoName ++ [slash] <+: logicalPath then
      logicalPath.drop (targetsRepoName.length + 1)
    else logicalPath
  match remainder.span (fun b => b != slash) with
  | (_, []) => (targetsRepoName ++ [colon] ++ remainder, remainder)
  | (subdirectory, _ :: fileName) => (targetsRepoName ++ [colon] ++ subdirectory, fileName)

/-- The metadata rule of the specification (section 4.1, step 2). -/
def specMetadataRule (metadataRepoName metadataTag logicalPath : GoString) :
    GoString × GoString :=
  (metadataRepoName ++ [colon] ++ metadataTag, path.Base logicalPath)

/-! ## Example data -/

/-- A fetcher used in the examples: metadata repository "metadata-repo" with
tag "latest", targets repository "targets-repo", empty cache. -/
def exampleFetcher : RegistryFetcher :=
  NewRegistryFetcher (ascii "metadata-repo") (ascii "latest") (ascii "targets-repo")

/-- An image whose every layer declares size 3 and has the content 1, 2, 3. -/
def threeByteImage : v1.Image :=
  { RawManifest := .error (.external 0),
    LayerByDigest := fun _ => .ok { Size := .ok 3, Uncompressed := .ok ⟨[1, 2, 3], none⟩ } }

/-- A well-formed sha256 digest. -/
def exampleHash : v1.Hash := ⟨ascii "sha256", List.replicate 64 97⟩

/-- An image whose every layer declares size 10; its content stream holds six
bytes. -/
def declaredTenImage : v1.Image :=
  { RawManifest := .error (.external 0),
    LayerByDigest := fun _ =>
      .ok { Size := .ok 10, Uncompressed := .ok ⟨[1, 2, 3, 4, 5, 6], none⟩ } }

/-- A content stream of 2^63 zero bytes. -/
def hugeStream : Bytes := List.replicate (2 ^ 63) 0

/-- An image whose every layer declares size 0 and streams `hugeStream`. -/
def hugeImage : v1.Image :=
  { RawManifest := .error (.external 0),
    LayerByDigest := fun _ => .ok { Size := .ok 0, Uncompressed := .ok ⟨hugeStream, none⟩ } }

/-- A manifest layer record with the given file-name annotation and digest. -/
def annotatedLayer (fileName digest : GoString) : Layer :=
  { Annotations := [( TufFileNameAnnotation, fileName)], Digest := digest }

/-- An image with the given manifest layer records; it has no layers to read. -/
def imageOfLayers (layers : List Layer) : v1.Image :=
  { RawManifest := .ok ⟨.ok ⟨layers⟩⟩, LayerByDigest := fun _ => .error (.external 0) }

/-- The digest string "sha256:" followed by 64 times the hex digit given. -/
def digestOf (hexDigit : UInt8) : GoString := ascii "sha256:" ++ List.replicate 64 hexDigit

/-- A manifest layer record that carries no annotation at all. -/
def unannotatedLayer (digest : GoString) : Layer := { Annotations := [], Digest := digest }

/-- An image with the given manifest layer records whose every layer has the
given content and declares its length as size. -/
def imageWithContent (layers : List Layer) (content : Bytes) : v1.Image :=
  { RawManifest := .ok ⟨.ok ⟨layers⟩⟩,
    LayerByDigest := fun _ =>
      .ok { Size := .ok content.length, Uncompressed := .ok ⟨content, none⟩ } }

/-- An image whose raw manifest is obtained but is not valid JSON. -/
def malformedManifestImage : v1.Image :=
  { RawManifest := .ok ⟨.error (.external 2)⟩, LayerByDigest := fun _ => .error (.external 0) }

/-- A registry that holds the given image under the given reference; pulling
any other reference fails with the collaborator error 1. -/
def registryWith (imgRef : GoString) (img : v1.Image) : Registry :=
  ⟨fun r _ _ => if r = imgRef then .ok img else .error (.external 1)⟩

/-- A registry in which every pull fails with the collaborator error 1. -/
def emptyRegistry : Registry := ⟨fun _ _ _ => .error (.external 1)⟩

/-- The metadata image of the examples: one layer annotated "2.root.json" with
the content 1, 2, 3. -/
def rootImage : v1.Image :=
  imageWithContent [annotatedLayer (ascii "2.root.json") (digestOf 97)] [1, 2, 3]

/-- A fetcher whose targets-repository name "repo" occurs inside the
metadata-repository name "metadata-repo". -/
def overlappingFetcher : RegistryFetcher :=
  NewRegistryFetcher (ascii "metadata-repo") (ascii "latest") (ascii "repo")

/-- A metadata image whose one layer is annotated with the nested name
"v2/2.root.json" and has the content 1, 2, 3. -/
def nestedNameImage : v1.Image :=
  imageWithContent [annotatedLayer (ascii "v2/2.root.json") (digestOf 97)] [1, 2, 3]

/-- An image whose manifest has one layer record, without annotations; the
layer has the content 1, 2, 3. -/
def unannotatedImage : v1.Image :=
  imageWithContent [unannotatedLayer (digestOf 97)] [1, 2, 3]

/-! ## Lemmas on the library functions -/

theorem ascii_slash : ascii "/" = [slash] := rfl

theorem ascii_colon : ascii ":" = [colon] := rfl

theorem HasPrefix_iff (s pre : GoString) : strings.HasPrefix s pre = true ↔ pre <+: s := by
  simp [strings.HasPrefix]

/-- Function `strings.Index` finds an occurrence exactly when there is one. -/
theorem Index_isSome_iff (s substr : GoString) :
    (strings.Index s substr).isSome = true ↔ substr <:+: s := by
  induction s with
  | nil =>
    by_cases h : substr = [] <;> simp [strings.Index, h]
  | cons c s ih =>
    rw [strings.Index, List.infix_cons_iff]
    by_cases hp : strings.HasPrefix (c :: s) substr = true
    · simp [hp, (HasPrefix_iff _ _).1 hp]
    · have hn : ¬ substr <+: c :: s := fun h => hp ((HasPrefix_iff _ _).2 h)
      simp [hp, hn, ih]

/-- Function `strings.Contains` decides the substring relation. -/
theorem Contains_iff (s substr : GoString) :
    strings.Contains s substr = true ↔ substr <:+: s := by
  simp [strings.Contains, Index_isSome_iff]

theorem Contains_eq_false_iff (s substr : GoString) :
    strings.Contains s substr = false ↔ ¬ substr <:+: s := by
  rw [← Contains_iff]; simp

theorem TrimPrefix_append (pre r : GoString) : strings.TrimPrefix (pre ++ r) pre = r := by
  simp [strings.TrimPrefix, strings.HasPrefix]

theorem Index_slash_absent (r : GoString) (h : slash ∉ r) : strings.Index r [slash] = none := by
  induction r with
  | nil => simp [strings.Index]
  | cons c r ih =>
    simp only [List.mem_cons, not_or] at h
    have hc : ¬ slash = c := h.1
    simp [strings.Index, strings.HasPrefix, hc, ih h.2]

theorem Index_slash_first (a b : GoString) (h : slash ∉ a) :
    strings.Index (a ++ slash :: b) [slash] = some a.length := by
  induction a with
  | nil => simp [strings.Index, strings.HasPrefix]
  | cons c a ih =>
    simp only [List.mem_cons, not_or] at h
    have hc : ¬ slash = c := h.1
    simp [strings.Index, strings.HasPrefix, hc, ih h.2]

theorem Cut_slash_absent (r : GoString) (h : slash ∉ r) :
    strings.Cut r [slash] = (r, [], false) := by
  simp [strings.Cut, Index_slash_absent r h]

theorem Cut_slash_first (a b : GoString) (h : slash ∉ a) :
    strings.Cut (a ++ slash :: b) [slash] = (a, b, true) := by
  simp [strings.Cut, Index_slash_first a b h]

theorem first_slash (t : GoString) (h : slash ∈ t) :
    ∃ a b, t = a ++ slash :: b ∧ slash ∉ a := by
  induction t with
  | nil => simp at h
  | cons c t ih =>
    by_cases hc : slash = c
    · exact ⟨[], t, by simp [hc], by simp⟩
    · have ht : slash ∈ t := by
        rcases List.mem_cons.1 h with h1 | h1
        · exact absurd h1 hc
        · exact h1
      obtain ⟨a, b, hab, ha⟩ := ih ht
      refine ⟨c :: a, b, by simp [hab], ?_⟩
      simp only [List.mem_cons, not_or]
      exact ⟨hc, ha⟩

theorem span_slash_absent (r : GoString) (h : slash ∉ r) :
    r.span (fun b => b != slash) = (r, []) := by
  rw [List.span_eq_take_drop]
  have hall : ∀ x ∈ r, (fun b => b != slash) x = true := by
    intro x hx
    have : x ≠ slash := fun e => h (e ▸ hx)
    simpa using this
  rw [List.takeWhile_eq_self_iff.2 hall, List.dropWhile_eq_nil_iff.2 hall]

theorem span_slash_first (a b : GoString) (h : slash ∉ a) :
    (a ++ slash :: b).span (fun b => b != slash) = (a, slash :: b) := by
  induction a with
  | nil => simp [List.span, List.span.loop]
  | cons c a ih =>
    simp only [List.mem_cons, not_or] at h
    have hc : (c != slash) = true := by
      have : c ≠ slash := fun e => h.1 e.symm
      simpa using this
    rw [List.span_eq_take_drop] at ih ⊢
    simp only [List.cons_append, List.takeWhile_cons, List.dropWhile_cons, hc, if_true]
    have ih2 := ih h.2
    simp only [Prod.mk.injEq] at ih2
    rw [ih2.1, ih2.2]

/-- The targets branch of `parseUrlPath`, as the source computes it. -/
theorem parseUrlPath_targets_branch (d : RegistryFetcher) (p : GoString)
    (hT : d.targetsRepo <:+: p) :
    d.parseUrlPath p = .ok (specTargetsRule d.targetsRepo p) := by
  have hc : strings.Contains p d.targetsRepo = true := (Contains_iff _ _).2 hT
  have hrem : strings.TrimPrefix p (d.targetsRepo ++ [slash])
      = (if d.targetsRepo ++ [slash] <+: p then p.drop (d.targetsRepo.length + 1) else p) := by
    simp [strings.TrimPrefix, strings.HasPrefix]
  unfold RegistryFetcher.parseUrlPath specTargetsRule
  simp only [hc, if_true]
  rw [← hrem]
  generalize strings.TrimPrefix p (d.targetsRepo ++ [slash]) = t
  by_cases hs : slash ∈ t
  · obtain ⟨a, b, rfl, ha⟩ := first_slash t hs
    rw [Cut_slash_first a b ha, span_slash_first a b ha]
    simp [Sprintf_s_colon_s]
  · rw [Cut_slash_absent t hs, span_slash_absent t hs]
    simp [Sprintf_s_colon_s]

/-- Function `path.Base` on a path that ends in a non-empty last segment. -/
theorem Base_last_segment (dir seg : GoString) (hne : seg ≠ []) (hs : slash ∉ seg) :
    path.Base (dir ++ slash :: seg) = seg := by
  have hrs : slash ∉ seg.reverse := by simpa using hs
  have hall : ∀ x ∈ seg.reverse, (fun b => b != slash) x = true := by
    intro x hx
    have : x ≠ slash := fun e => hrs (e ▸ hx)
    simpa using this
  obtain ⟨x, xs, hx⟩ : ∃ x xs, seg.reverse = x :: xs := by
    cases h : seg.reverse with
    | nil => exact absurd (List.reverse_eq_nil_iff.1 h) hne
    | cons x xs => exact ⟨x, xs, rfl⟩
  have hxne : (x == slash) = false := by
    have hmem : x ∈ seg.reverse := by rw [hx]; simp
    have : x ≠ slash := fun e => hrs (e ▸ hmem)
    simpa using this
  have hdrop : ((dir ++ slash :: seg).reverse.dropWhile (fun b => b == slash))
      = seg.reverse ++ slash :: dir.reverse := by
    simp [hx, List.dropWhile_cons, hxne]
  have htake : (seg.reverse ++ slash :: dir.reverse).takeWhile (fun b => b != slash)
      = seg.reverse := by
    rw [List.takeWhile_append_of_pos hall]
    simp [List.takeWhile_cons]
  unfold path.Base
  simp only [hdrop, List.reverse_reverse, htake]
  simp [hne]

/-- Function `path.Base` on a non-empty path without a slash. -/
theorem Base_no_slash (p : GoString) (hne : p ≠ []) (hs : slash ∉ p) : path.Base p = p := by
  have hrs : slash ∉ p.reverse := by simpa using hs
  have hall : ∀ x ∈ p.reverse, (fun b => b != slash) x = true := by
    intro x hx
    have : x ≠ slash := fun e => hrs (e ▸ hx)
    simpa using this
  obtain ⟨x, xs, hx⟩ : ∃ x xs, p.reverse = x :: xs := by
    cases h : p.reverse with
    | nil => exact absurd (List.reverse_eq_nil_iff.1 h) hne
    | cons x xs => exact ⟨x, xs, rfl⟩
  have hxne : (x == slash) = false := by
    have hmem : x ∈ p.reverse := by rw [hx]; simp
    have : x ≠ slash := fun e => hrs (e ▸ hmem)
    simpa using this
  have hdrop : (p.reverse.dropWhile (fun b => b == slash)) = p.reverse := by
    simp [hx, List.dropWhile_cons, hxne]
  unfold path.Base
  simp only [hdrop, List.reverse_reverse, List.takeWhile_eq_self_iff.2 hall]
  simp [hne]

/-- The metadata branch of `parseUrlPath`, as the source computes it. -/
theorem parseUrlPath_metadata_branch (d : RegistryFetcher) (p : GoString)
    (hT : ¬ d.targetsRepo <:+: p) (hM : d.metadataRepo <:+: p) :
    d.parseUrlPath p = .ok (specMetadataRule d.metadataRepo d.metadataTag p) := by
  have hc : strings.Contains p d.targetsRepo = false := (Contains_eq_false_iff _ _).2 hT
  have hm : strings.Contains p d.metadataRepo = true := (Contains_iff _ _).2 hM
  unfold RegistryFetcher.parseUrlPath specMetadataRule
  simp [hc, hm, Sprintf_s_colon_s]

/-! ## Properties of `parseUrlPath` -/

/-- C5: for every logical path of the form targetsRepo + "/" + sub + "/" + name
in which sub contains no "/", `parseUrlPath` succeeds with
imageRef = targetsRepo + ":" + sub and fileName = name. -/
theorem parseUrlPath_nested (d : RegistryFetcher) (sub name : GoString)
    (hsub : slash ∉ sub) :
    d.parseUrlPath (d.targetsRepo ++ ascii "/" ++ sub ++ ascii "/" ++ name)
      = .ok (d.targetsRepo ++ ascii ":" ++ sub, name) := by
  have hc : strings.Contains (d.targetsRepo ++ [slash] ++ sub ++ [slash] ++ name) d.targetsRepo
      = true := by
    rw [Contains_iff]
    exact ⟨[], [slash] ++ sub ++ [slash] ++ name, by simp⟩
  have ht : strings.TrimPrefix (d.targetsRepo ++ [slash] ++ sub ++ [slash] ++ name)
      (d.targetsRepo ++ [slash]) = sub ++ slash :: name := by
    have h := TrimPrefix_append (d.targetsRepo ++ [slash]) (sub ++ slash :: name)
    simpa using h
  simp only [ascii_slash, ascii_colon]
  unfold RegistryFetcher.parseUrlPath
  simp only [hc, if_true, ht, Cut_slash_first sub name hsub]
  simp [Sprintf_s_colon_s]

/-- Witness of C5 at "targets-repo/v1/app.bin". -/
theorem parseUrlPath_nested_witness :
    slash ∉ ascii "v1" ∧
    exampleFetcher.parseUrlPath (ascii "targets-repo/v1/app.bin")
      = .ok (ascii "targets-repo:v1", ascii "app.bin") :=
  ⟨by decide, parseUrlPath_nested exampleFetcher (ascii "v1") (ascii "app.bin") (by decide)⟩

/-- C6: for every logical path p that contains the targets-repo name and whose
remainder after the prefix targetsRepo + "/" has no further "/", `parseUrlPath`
succeeds with fileName and tag both equal to that remainder and
imageRef = targetsRepo + ":" + remainder; for p = targetsRepo + "/" + r the
remainder is r. -/
theorem parseUrlPath_flat (d : RegistryFetcher) (p : GoString)
    (hT : d.targetsRepo <:+: p)
    (hflat : slash ∉ strings.TrimPrefix p (d.targetsRepo ++ ascii "/")) :
    d.parseUrlPath p
        = .ok (d.targetsRepo ++ ascii ":" ++ strings.TrimPrefix p (d.targetsRepo ++ ascii "/"),
            strings.TrimPrefix p (d.targetsRepo ++ ascii "/"))
      ∧ ∀ r, p = d.targetsRepo ++ ascii "/" ++ r →
          strings.TrimPrefix p (d.targetsRepo ++ ascii "/") = r := by
  have hc : strings.Contains p d.targetsRepo = true := (Contains_iff _ _).2 hT
  simp only [ascii_slash, ascii_colon] at hflat ⊢
  refine ⟨?_, ?_⟩
  · unfold RegistryFetcher.parseUrlPath
    simp only [hc, if_true, Cut_slash_absent _ hflat]
    simp [Sprintf_s_colon_s]
  · intro r hr
    rw [hr]
    exact TrimPrefix_append (d.targetsRepo ++ [slash]) r

/-- Witness of C6 at "targets-repo/app.bin". -/
theorem parseUrlPath_flat_witness :
    exampleFetcher.parseUrlPath (ascii "targets-repo/app.bin")
      = .ok (ascii "targets-repo:app.bin", ascii "app.bin") :=
  (parseUrlPath_flat exampleFetcher (ascii "targets-repo/app.bin")
    ((Contains_iff _ _).1 (by decide)) (by decide)).1

/-- C7: for every logical path p that contains the metadata-repo name and does
not contain the targets-repo name, `parseUrlPath` succeeds with
imageRef = metadataRepo + ":" + metadataTag and fileName = path.Base(p); this
is the final path segment however deeply p is nested: for p = dir + "/" + seg
with seg non-empty and free of "/" it is seg, and for a non-empty p without "/"
it is p. -/
theorem parseUrlPath_metadata (d : RegistryFetcher) (p : GoString)
    (hT : ¬ d.targetsRepo <:+: p) (hM : d.metadataRepo <:+: p) :
    d.parseUrlPath p = .ok (d.metadataRepo ++ ascii ":" ++ d.metadataTag, path.Base p)
      ∧ (∀ dir seg, p = dir ++ ascii "/" ++ seg → seg ≠ [] → slash ∉ seg → path.Base p = seg)
      ∧ (p ≠ [] → slash ∉ p → path.Base p = p) := by
  simp only [ascii_slash, ascii_colon]
  refine ⟨?_, ?_, ?_⟩
  · rw [parseUrlPath_metadata_branch d p hT hM]
    rfl
  · intro dir seg hp hne hs
    rw [hp]
    simpa using Base_last_segment dir seg hne hs
  · exact Base_no_slash p

/-- Witness of C7 at the nested path "mirror/metadata-repo/v2/2.root.json". -/
theorem parseUrlPath_metadata_witness :
    exampleFetcher.parseUrlPath (ascii "mirror/metadata-repo/v2/2.root.json")
      = .ok (ascii "metadata-repo:latest", ascii "2.root.json") := by
  have h := parseUrlPath_metadata exampleFetcher (ascii "mirror/metadata-repo/v2/2.root.json")
    ((Contains_eq_false_iff _ _).1 (by decide)) ((Contains_iff _ _).1 (by decide))
  rw [h.1, h.2.1 (ascii "mirror/metadata-repo/v2") (ascii "2.root.json") (by decide)
    (by decide) (by decide)]
  decide

/-- C8: `parseUrlPath` is a function of the configuration and the path; it
fails if and only if the path contains neither the targets-repo name nor the
metadata-repo name as a substring, the error then being the invalid-path error;
for every path containing either name it returns exactly one
(imageRef, fileName) pair and no error. -/
theorem parseUrlPath_fails_iff (d : RegistryFetcher) (p : GoString) :
    ((∃ e, d.parseUrlPath p = .error e) ↔ (¬ d.targetsRepo <:+: p ∧ ¬ d.metadataRepo <:+: p))
      ∧ ((¬ d.targetsRepo <:+: p ∧ ¬ d.metadataRepo <:+: p) →
          d.parseUrlPath p = .error (.invalidUrlPath p))
      ∧ ((d.targetsRepo <:+: p ∨ d.metadataRepo <:+: p) →
          ∃! r : GoString × GoString, d.parseUrlPath p = .ok r) := by
  by_cases hT : d.targetsRepo <:+: p
  · have h := parseUrlPath_targets_branch d p hT
    refine ⟨?_, ?_, ?_⟩
    · simp [h, hT]
    · intro hn; exact absurd hT hn.1
    · intro _
      exact ⟨specTargetsRule d.targetsRepo p, h, fun r hr => by
        rw [h] at hr; exact (Except.ok.inj hr).symm⟩
  · have hc : strings.Contains p d.targetsRepo = false := (Contains_eq_false_iff _ _).2 hT
    by_cases hM : d.metadataRepo <:+: p
    · have h := parseUrlPath_metadata_branch d p hT hM
      refine ⟨?_, ?_, ?_⟩
      · simp [h, hM]
      · intro hn; exact absurd hM hn.2
      · intro _
        exact ⟨_, h, fun r hr => by rw [h] at hr; exact (Except.ok.inj hr).symm⟩
    · have hm : strings.Contains p d.metadataRepo = false := (Contains_eq_false_iff _ _).2 hM
      have h : d.parseUrlPath p = .error (.invalidUrlPath p) := by
        unfold RegistryFetcher.parseUrlPath
        simp [hc, hm]
      refine ⟨?_, ?_, ?_⟩
      · simp [h, hT, hM]
      · intro _; exact h
      · intro hor
        rcases hor with h1 | h1
        · exact absurd h1 hT
        · exact absurd h1 hM

/-- Witness of C8: "other/file" contains neither repository name and is
rejected; "targets-repo/app.bin" is resolved to exactly one pair. -/
theorem parseUrlPath_fails_iff_witness :
    exampleFetcher.parseUrlPath (ascii "other/file") = .error (.invalidUrlPath (ascii "other/file"))
      ∧ ∃! r : GoString × GoString,
          exampleFetcher.parseUrlPath (ascii "targets-repo/app.bin") = .ok r :=
  ⟨(parseUrlPath_fails_iff exampleFetcher (ascii "other/file")).2.1
      ⟨(Contains_eq_false_iff _ _).1 (by decide), (Contains_eq_false_iff _ _).1 (by decide)⟩,
    (parseUrlPath_fails_iff exampleFetcher (ascii "targets-repo/app.bin")).2.2
      (Or.inl ((Contains_iff _ _).1 (by decide)))⟩

/-- C9: for every logical path that contains both the targets-repo name and the
metadata-repo name, `parseUrlPath` takes the targets branch: the result is the
pair of the targets rule, imageRef = targetsRepo + ":" + tag, and it is not
computed from the metadata configuration: it stays the same whatever the
metadata-repo name and metadata tag are. -/
theorem parseUrlPath_targets_precedence (d : RegistryFetcher) (p : GoString)
    (hT : d.targetsRepo <:+: p) (hM : d.metadataRepo <:+: p) :
    d.parseUrlPath p = .ok (specTargetsRule d.targetsRepo p)
      ∧ (∃ tag, (specTargetsRule d.targetsRepo p).1 = d.targetsRepo ++ ascii ":" ++ tag)
      ∧ ∀ repo tag : GoString,
          RegistryFetcher.parseUrlPath { d with metadataRepo := repo, metadataTag := tag } p
            = d.parseUrlPath p := by
  have _ := hM
  refine ⟨parseUrlPath_targets_branch d p hT, ?_, ?_⟩
  · simp only [ascii_colon]
    unfold specTargetsRule
    dsimp only
    split
    · exact ⟨_, rfl⟩
    · exact ⟨_, rfl⟩
  · intro repo tag
    rw [parseUrlPath_targets_branch d p hT]
    exact parseUrlPath_targets_branch { d with metadataRepo := repo, metadataTag := tag } p hT

/-- Witness of C9: with targets repository "repo" and metadata repository
"repo-meta", the path "repo-meta/root.json" contains both names and is resolved
by the targets rule. -/
theorem parseUrlPath_targets_precedence_witness :
    RegistryFetcher.parseUrlPath (NewRegistryFetcher (ascii "repo-meta") (ascii "latest") (ascii "repo"))
        (ascii "repo-meta/root.json")
      = .ok (ascii "repo:repo-meta", ascii "root.json") := by
  have h := (parseUrlPath_targets_precedence
    (NewRegistryFetcher (ascii "repo-meta") (ascii "latest") (ascii "repo"))
    (ascii "repo-meta/root.json")
    ((Contains_iff _ _).1 (by decide)) ((Contains_iff _ _).1 (by decide))).1
  rw [h]
  decide

/-! ## Properties of `getDataFromLayer` -/

theorem wrapInt64_of_range (x : Int) (h1 : -(2 ^ 63) ≤ x) (h2 : x < 2 ^ 63) : wrapInt64 x = x := by
  unfold wrapInt64
  norm_num at h1 h2 ⊢
  omega

theorem wrapInt64_lt (x : Int) : wrapInt64 x < 2 ^ 63 := by
  unfold wrapInt64
  norm_num
  omega

theorem wrapInt64_MaxInt64_succ : wrapInt64 (MaxInt64 + 1) = -(2 ^ 63) := by
  decide

/-- A limited reader yields no more bytes than its limit. -/
theorem LimitReader_length_le (r : io.Reader) (n : Int) :
    ((io.LimitReader r n).bytes.length : Int) ≤ max n 0 := by
  unfold io.LimitReader
  split
  · simp
  · split
    · simp; omega
    · simp; omega

/-- The source after the layer, its size and its content stream have been
obtained and the declared size has passed the first check. -/
theorem getDataFromLayer_read (img : v1.Image) (h : v1.Hash) (maxLength : Int)
    (fileLayer : v1.Layer) (length : Int) (content : io.Reader)
    (hL : img.LayerByDigest h = .ok fileLayer) (hS : fileLayer.Size = .ok length)
    (hle : length ≤ maxLength) (hU : fileLayer.Uncompressed = .ok content) :
    getDataFromLayer img h maxLength =
      (match (io.LimitReader content (wrapInt64 (maxLength + 1))).err with
        | some err => .error err
        | none =>
          if wrapInt64 (io.LimitReader content (wrapInt64 (maxLength + 1))).bytes.length > maxLength
          then .error (.ErrDownloadLengthMismatch
            (wrapInt64 (io.LimitReader content (wrapInt64 (maxLength + 1))).bytes.length) maxLength)
          else .ok (io.LimitReader content (wrapInt64 (maxLength + 1))).bytes,
        [.LayerByDigest h, .Size, .Uncompressed, .Read (wrapInt64 (maxLength + 1))]) := by
  have hgt : ¬ length > maxLength := not_lt.2 hle
  unfold getDataFromLayer
  simp only [hL, hS, hU, hgt, if_false, io.ReadAll]
  cases (io.LimitReader content (wrapInt64 (maxLength + 1))).err with
  | some err => rfl
  | none =>
    dsimp only
    split <;> rfl

/-- C1: whenever `getDataFromLayer` returns successfully, the number of bytes
it returns is at most maxLength, whatever the image, the layer digest, the
declared size and the content stream are. -/
theorem getDataFromLayer_bounded (img : v1.Image) (h : v1.Hash) (maxLength : Int)
    (data : Bytes) (hok : (getDataFromLayer img h maxLength).1 = .ok data) :
    (data.length : Int) ≤ maxLength := by
  cases hL : img.LayerByDigest h with
  | error e => simp [getDataFromLayer, hL] at hok
  | ok fileLayer =>
    cases hS : fileLayer.Size with
    | error e => simp [getDataFromLayer, hL, hS] at hok
    | ok length =>
      by_cases hgt : length > maxLength
      · simp [getDataFromLayer, hL, hS, hgt] at hok
      · cases hU : fileLayer.Uncompressed with
        | error e => simp [getDataFromLayer, hL, hS, hgt, hU] at hok
        | ok content =>
          rw [getDataFromLayer_read img h maxLength fileLayer length content hL hS
            (not_lt.1 hgt) hU] at hok
          have hb := LimitReader_length_le content (wrapInt64 (maxLength + 1))
          have hw := wrapInt64_lt (maxLength + 1)
          generalize io.LimitReader content (wrapInt64 (maxLength + 1)) = r at hok hb
          cases he : r.err with
          | some err => simp [he] at hok
          | none =>
            simp only [he] at hok
            by_cases hc : wrapInt64 r.bytes.length > maxLength
            · simp [hc] at hok
            · simp only [hc, if_false] at hok
              have hd : r.bytes = data := Except.ok.inj hok
              subst hd
              have hrange : wrapInt64 r.bytes.length = r.bytes.length := by
                apply wrapInt64_of_range
                · have : (0 : Int) ≤ r.bytes.length := Int.natCast_nonneg _
                  norm_num
                  omega
                · rcases le_max_iff.1 hb with h1 | h1
                  · omega
                  · norm_num at h1 ⊢
                    omega
              rw [hrange] at hc
              exact not_lt.1 hc

/-- Witness of C1: with maxLength 5 the three bytes are returned, and 3 is at
most 5. -/
theorem getDataFromLayer_bounded_witness :
    (getDataFromLayer threeByteImage exampleHash 5).1 = .ok [1, 2, 3]
      ∧ (([1, 2, 3] : Bytes).length : Int) ≤ 5 :=
  ⟨by decide, getDataFromLayer_bounded threeByteImage exampleHash 5 [1, 2, 3] (by decide)⟩

/-- C3: for every layer whose declared size is greater than maxLength,
`getDataFromLayer` fails with ErrDownloadLengthMismatch, and the only
collaborator calls it makes are LayerByDigest and Size: the content stream is
neither obtained nor read. -/
theorem getDataFromLayer_declared_too_large (img : v1.Image) (h : v1.Hash) (maxLength : Int)
    (fileLayer : v1.Layer) (length : Int)
    (hL : img.LayerByDigest h = .ok fileLayer) (hS : fileLayer.Size = .ok length)
    (hgt : length > maxLength) :
    (getDataFromLayer img h maxLength).1 = .error (.ErrDownloadLengthMismatch length maxLength)
      ∧ (getDataFromLayer img h maxLength).2 = [.LayerByDigest h, .Size]
      ∧ Call.Uncompressed ∉ (getDataFromLayer img h maxLength).2
      ∧ ∀ n, Call.Read n ∉ (getDataFromLayer img h maxLength).2 := by
  have hres : getDataFromLayer img h maxLength
      = (.error (.ErrDownloadLengthMismatch length maxLength), [.LayerByDigest h, .Size]) := by
    unfold getDataFromLayer
    simp [hL, hS, hgt]
  rw [hres]
  simp

/-- Witness of C3: declared size 10, maxLength 5. -/
theorem getDataFromLayer_declared_too_large_witness :
    (getDataFromLayer declaredTenImage exampleHash 5).1
        = .error (.ErrDownloadLengthMismatch 10 5)
      ∧ (getDataFromLayer declaredTenImage exampleHash 5).2
        = [.LayerByDigest exampleHash, .Size] :=
  have h := getDataFromLayer_declared_too_large declaredTenImage exampleHash 5
    { Size := .ok 10, Uncompressed := .ok ⟨[1, 2, 3, 4, 5, 6], none⟩ } 10 rfl rfl (by decide)
  ⟨h.1, h.2.1⟩

/-- Below math.MaxInt64 the reader is complete: a layer whose declared size is
at most maxLength and whose stream yields at most maxLength bytes and then
ends is returned in full. -/
theorem getDataFromLayer_complete_below_MaxInt64 (img : v1.Image) (h : v1.Hash)
    (maxLength : Int) (fileLayer : v1.Layer) (length : Int) (content : Bytes)
    (hL : img.LayerByDigest h = .ok fileLayer) (hS : fileLayer.Size = .ok length)
    (hle : length ≤ maxLength) (hU : fileLayer.Uncompressed = .ok ⟨content, none⟩)
    (hn : (content.length : Int) ≤ maxLength) (hmax : maxLength < MaxInt64) :
    (getDataFromLayer img h maxLength).1 = .ok content := by
  rw [getDataFromLayer_read img h maxLength fileLayer length ⟨content, none⟩ hL hS hle hU]
  have h0 : (0 : Int) ≤ content.length := Int.natCast_nonneg _
  have hmax2 : maxLength < 2 ^ 63 - 1 := hmax
  have hlim : wrapInt64 (maxLength + 1) = maxLength + 1 := by
    apply wrapInt64_of_range
    · norm_num; omega
    · norm_num at hmax2 ⊢; omega
  have hr : io.LimitReader ⟨content, none⟩ (wrapInt64 (maxLength + 1)) = ⟨content, none⟩ := by
    rw [hlim]
    unfold io.LimitReader
    have h1 : ¬ maxLength + 1 ≤ 0 := by omega
    have h2 : (content.length : Int) < maxLength + 1 := by omega
    simp only [h1, h2, if_false, if_true]
  rw [hr]
  have hw : wrapInt64 content.length = content.length := by
    apply wrapInt64_of_range
    · norm_num; omega
    · norm_num at hmax2 ⊢; omega
  have hc : ¬ wrapInt64 content.length > maxLength := by rw [hw]; omega
  simp only [hc, if_false]

/-- Below math.MaxInt64 the actual-byte-count check catches an understated
size: a layer whose declared size is at most maxLength but whose stream yields
more than maxLength bytes is rejected with ErrDownloadLengthMismatch.  The
stream either ends without a read error or holds more than maxLength + 1
bytes, so that no read error can arrive together with the byte that reaches
the limit. -/
theorem getDataFromLayer_overlong_below_MaxInt64 (img : v1.Image) (h : v1.Hash)
    (maxLength : Int) (fileLayer : v1.Layer) (length : Int) (content : io.Reader)
    (hL : img.LayerByDigest h = .ok fileLayer) (hS : fileLayer.Size = .ok length)
    (hle : length ≤ maxLength) (hU : fileLayer.Uncompressed = .ok content)
    (hn : maxLength < (content.bytes.length : Int))
    (herr : content.err = none ∨ maxLength + 1 < (content.bytes.length : Int))
    (hmin : -(2 ^ 63) ≤ maxLength) (hmax : maxLength < MaxInt64) :
    ∃ n, (getDataFromLayer img h maxLength).1 = .error (.ErrDownloadLengthMismatch n maxLength) := by
  have _ := herr
  rw [getDataFromLayer_read img h maxLength fileLayer length content hL hS hle hU]
  have hmax2 : maxLength < 2 ^ 63 - 1 := hmax
  have hlim : wrapInt64 (maxLength + 1) = maxLength + 1 := by
    apply wrapInt64_of_range
    · norm_num at hmin ⊢; omega
    · norm_num at hmax2 ⊢; omega
  rw [hlim]
  by_cases hneg : maxLength + 1 ≤ 0
  · have hr : io.LimitReader content (maxLength + 1) = ⟨[], none⟩ := by
      unfold io.LimitReader
      simp only [hneg, if_true]
    rw [hr]
    have hc : wrapInt64 (([] : Bytes).length) > maxLength := by
      have : wrapInt64 (([] : Bytes).length) = 0 := by decide
      rw [this]; omega
    exact ⟨_, by simp only [hc, if_true]; rfl⟩
  · have h2 : ¬ (content.bytes.length : Int) < maxLength + 1 := by omega
    have hr : io.LimitReader content (maxLength + 1)
        = ⟨content.bytes.take (maxLength + 1).toNat, none⟩ := by
      unfold io.LimitReader
      simp only [hneg, h2, if_false]
    rw [hr]
    have hlen : (((content.bytes.take (maxLength + 1).toNat).length : Nat) : Int)
        = maxLength + 1 := by
      rw [List.length_take]
      omega
    have hw : wrapInt64 ((content.bytes.take (maxLength + 1).toNat).length) = maxLength + 1 := by
      rw [hlen]
      exact hlim
    have hc : wrapInt64 ((content.bytes.take (maxLength + 1).toNat).length) > maxLength := by
      rw [hw]; omega
    exact ⟨_, by simp only [hc, if_true]; rfl⟩

/-- C2, at the failing input maxLength = math.MaxInt64: the layer declares size
3 and its stream yields the 3 bytes 1, 2, 3, both within maxLength, yet
`getDataFromLayer` succeeds with no bytes at all: `maxLength+1` wraps to
math.MinInt64 and the limited reader ends before the first byte. -/
theorem getDataFromLayer_MaxInt64_returns_nothing :
    threeByteImage.LayerByDigest exampleHash
        = .ok { Size := .ok 3, Uncompressed := .ok ⟨[1, 2, 3], none⟩ }
      ∧ (3 : Int) ≤ MaxInt64
      ∧ (getDataFromLayer threeByteImage exampleHash MaxInt64).1 = .ok []
      ∧ (getDataFromLayer threeByteImage exampleHash MaxInt64).1 ≠ .ok [1, 2, 3] := by
  refine ⟨rfl, by decide, by decide, by decide⟩

/-- C4, at the failing input maxLength = math.MaxInt64: the layer declares size
0 and its stream yields 2^63 bytes, more than maxLength, yet `getDataFromLayer`
does not fail: it succeeds with no bytes. -/
theorem getDataFromLayer_MaxInt64_accepts_overlong :
    (0 : Int) ≤ MaxInt64
      ∧ MaxInt64 < (hugeStream.length : Int)
      ∧ (getDataFromLayer hugeImage exampleHash MaxInt64).1 = .ok [] := by
  refine ⟨by decide, ?_, ?_⟩
  · unfold hugeStream MaxInt64
    rw [List.length_replicate]
    norm_num
  · rw [getDataFromLayer_read hugeImage exampleHash MaxInt64
      { Size := .ok 0, Uncompressed := .ok ⟨hugeStream, none⟩ } 0 ⟨hugeStream, none⟩ rfl rfl
      (by decide) rfl]
    have hr : io.LimitReader ⟨hugeStream, none⟩ (wrapInt64 (MaxInt64 + 1)) = ⟨[], none⟩ := by
      rw [wrapInt64_MaxInt64_succ]
      unfold io.LimitReader
      have h1 : (-(2 ^ 63) : Int) ≤ 0 := by norm_num
      simp only [h1, if_true]
    rw [hr]
    decide

/-! ## Properties of `findFileInManifest` -/

/-- For a non-empty name the map index expression equals the name exactly when
the key is present with that value. -/
theorem mapIndex_eq_iff (m : List (GoString × GoString)) (k name : GoString) (hname : name ≠ []) :
    mapIndex m k = name ↔ m.lookup k = some name := by
  unfold mapIndex
  cases h : m.lookup k with
  | none =>
    simp only [Option.getD_none]
    constructor
    · intro e; exact absurd e.symm hname
    · intro e; cases e
  | some v => simp

/-- The loop stops at the first layer whose annotation equals the name. -/
theorem scanLayers_first (pre post : List Layer) (layer : Layer) (name : GoString)
    (hpre : ∀ l ∈ pre, mapIndex l.Annotations TufFileNameAnnotation ≠ name)
    (hl : mapIndex layer.Annotations TufFileNameAnnotation = name) :
    scanLayers (pre ++ layer :: post) name = layer.Digest := by
  induction pre with
  | nil => simp [scanLayers, hl]
  | cons l pre ih =>
    have h1 : mapIndex l.Annotations TufFileNameAnnotation ≠ name := hpre l (by simp)
    have h2 : ∀ x ∈ pre, mapIndex x.Annotations TufFileNameAnnotation ≠ name :=
      fun x hx => hpre x (by simp [hx])
    simp [scanLayers, h1, ih h2]

theorem NewHash_empty : v1.NewHash [] = .error (.hashParse []) := by decide

/-- C10, counterexample: the only layer of the manifest carries the annotation
tuf.io/filename = "a.json", but `findFileInManifest` returns no digest for
"a.json": with the empty digest string it reports the file as not found, and
with the ill-formed digest string "sha256:abc" it fails with the error of
`v1.NewHash`. -/
theorem findFileInManifest_matching_layer_without_digest :
    (annotatedLayer (ascii "a.json") []).Annotations.lookup TufFileNameAnnotation
        = some (ascii "a.json")
      ∧ (findFileInManifest (imageOfLayers [annotatedLayer (ascii "a.json") []])
          (ascii "a.json")).1 = .error (.fileNotFound (ascii "a.json"))
      ∧ (findFileInManifest (imageOfLayers [annotatedLayer (ascii "a.json") (ascii "sha256:abc")])
          (ascii "a.json")).1 = .error (.hashParse (ascii "sha256:abc")) := by
  refine ⟨by decide, by decide, by decide⟩

/-- C10, amended: for every manifest, given as the list of layer records
decoded from the raw manifest, and every non-empty file name: if some layer's
annotation tuf.io/filename equals the file name exactly, the first such layer
in manifest order alone decides the outcome of `findFileInManifest`, whatever
the layers after it carry: when its digest string is well formed (`v1.NewHash`
accepts it) the hash of that digest is returned; when its digest string is
empty the call fails with the not-found error; when its digest string is not
empty but ill formed the call fails with the error of `v1.NewHash`. -/
theorem findFileInManifest_first_match (img : v1.Image) (mf : RawManifest)
    (pre post : List Layer) (layer : Layer) (name : GoString)
    (hraw : img.RawManifest = .ok mf) (hjson : json.Unmarshal mf = .ok ⟨pre ++ layer :: post⟩)
    (hname : name ≠ [])
    (hpre : ∀ l ∈ pre, l.Annotations.lookup TufFileNameAnnotation ≠ some name)
    (hl : layer.Annotations.lookup TufFileNameAnnotation = some name) :
    (∀ hash, v1.NewHash layer.Digest = .ok hash → (findFileInManifest img name).1 = .ok hash)
      ∧ (layer.Digest = [] → (findFileInManifest img name).1 = .error (.fileNotFound name))
      ∧ (∀ e, layer.Digest ≠ [] → v1.NewHash layer.Digest = .error e →
          (findFileInManifest img name).1 = .error e)
      ∧ (findFileInManifest img name).1
          = (if layer.Digest = [] then .error (.fileNotFound name) else v1.NewHash layer.Digest) := by
  have hscan : scanLayers (pre ++ layer :: post) name = layer.Digest :=
    scanLayers_first pre post layer name
      (fun l hmem e => hpre l hmem ((mapIndex_eq_iff _ _ _ hname).1 e))
      ((mapIndex_eq_iff _ _ _ hname).2 hl)
  have hempty : layer.Digest = [] →
      (findFileInManifest img name).1 = .error (.fileNotFound name) := by
    intro he
    unfold findFileInManifest
    simp only [hraw, hjson, hscan, he, if_true]
  have hfull : layer.Digest ≠ [] → (findFileInManifest img name).1 = v1.NewHash layer.Digest := by
    intro hne
    unfold findFileInManifest
    simp only [hraw, hjson, hscan, hne, if_false]
    cases v1.NewHash layer.Digest <;> rfl
  refine ⟨?_, hempty, ?_, ?_⟩
  · intro hash hdigest
    have hne : layer.Digest ≠ [] := by
      intro e
      rw [e, NewHash_empty] at hdigest
      cases hdigest
    rw [hfull hne, hdigest]
  · intro e hne hdigest
    rw [hfull hne, hdigest]
  · by_cases he : layer.Digest = []
    · rw [hempty he, if_pos he]
    · rw [hfull he, if_neg he]

/-- Witness of C10 (amended): of the two layers annotated "b.json" the first
one, in second place of the manifest, gives the digest; and when the first
layer annotated "b.json" has an empty digest string the call reports not found,
although a later layer annotated "b.json" has a well-formed digest. -/
theorem findFileInManifest_first_match_witness :
    (findFileInManifest
        (imageOfLayers [annotatedLayer (ascii "a.json") (digestOf 97),
          annotatedLayer (ascii "b.json") (digestOf 98),
          annotatedLayer (ascii "b.json") (digestOf 99)])
        (ascii "b.json")).1
        = .ok ⟨ascii "sha256", List.replicate 64 98⟩
      ∧ (findFileInManifest
          (imageOfLayers [annotatedLayer (ascii "a.json") (digestOf 97),
            annotatedLayer (ascii "b.json") [],
            annotatedLayer (ascii "b.json") (digestOf 99)])
          (ascii "b.json")).1
        = .error (.fileNotFound (ascii "b.json")) :=
  ⟨(findFileInManifest_first_match
      (imageOfLayers [annotatedLayer (ascii "a.json") (digestOf 97),
        annotatedLayer (ascii "b.json") (digestOf 98),
        annotatedLayer (ascii "b.json") (digestOf 99)])
      ⟨.ok ⟨[annotatedLayer (ascii "a.json") (digestOf 97),
        annotatedLayer (ascii "b.json") (digestOf 98),
        annotatedLayer (ascii "b.json") (digestOf 99)]⟩⟩
      [annotatedLayer (ascii "a.json") (digestOf 97)]
      [annotatedLayer (ascii "b.json") (digestOf 99)]
      (annotatedLayer (ascii "b.json") (digestOf 98))
      (ascii "b.json") rfl rfl (by decide) (by decide) (by decide)).1
      ⟨ascii "sha256", List.replicate 64 98⟩ (by decide),
    (findFileInManifest_first_match
      (imageOfLayers [annotatedLayer (ascii "a.json") (digestOf 97),
        annotatedLayer (ascii "b.json") [],
        annotatedLayer (ascii "b.json") (digestOf 99)])
      ⟨.ok ⟨[annotatedLayer (ascii "a.json") (digestOf 97),
        annotatedLayer (ascii "b.json") [],
        annotatedLayer (ascii "b.json") (digestOf 99)]⟩⟩
      [annotatedLayer (ascii "a.json") (digestOf 97)]
      [annotatedLayer (ascii "b.json") (digestOf 99)]
      (annotatedLayer (ascii "b.json") [])
      (ascii "b.json") rfl rfl (by decide) (by decide) (by decide)).2.1 rfl⟩

/-- The loop finds nothing when no layer's annotation value equals the name. -/
theorem scanLayers_no_match (layers : List Layer) (name : GoString)
    (hno : ∀ l ∈ layers, mapIndex l.Annotations TufFileNameAnnotation ≠ name) :
    scanLayers layers name = [] := by
  induction layers with
  | nil => rfl
  | cons l rest ih =>
    have h1 : mapIndex l.Annotations TufFileNameAnnotation ≠ name := hno l (by simp)
    have h2 : ∀ x ∈ rest, mapIndex x.Annotations TufFileNameAnnotation ≠ name :=
      fun x hx => hno x (by simp [hx])
    simp [scanLayers, h1, ih h2]

/-- When the comparison of the source fails for every layer of the decoded
manifest, `findFileInManifest` fails with the not-found error after the one
call for the raw manifest. -/
theorem findFileInManifest_no_match (img : v1.Image) (mf : RawManifest) (layers : List Layer)
    (name : GoString) (hraw : img.RawManifest = .ok mf) (hjson : json.Unmarshal mf = .ok ⟨layers⟩)
    (hno : ∀ l ∈ layers, mapIndex l.Annotations TufFileNameAnnotation ≠ name) :
    findFileInManifest img name = (.error (.fileNotFound name), [.RawManifest]) := by
  unfold findFileInManifest
  simp only [hraw, hjson, scanLayers_no_match layers name hno, if_true]

/-- For a non-empty file name: when no layer carries the annotation with that
value, `findFileInManifest` fails with the not-found error. -/
theorem findFileInManifest_not_found_nonempty (img : v1.Image) (mf : RawManifest)
    (layers : List Layer) (name : GoString) (hraw : img.RawManifest = .ok mf)
    (hjson : json.Unmarshal mf = .ok ⟨layers⟩) (hname : name ≠ [])
    (hno : ∀ l ∈ layers, l.Annotations.lookup TufFileNameAnnotation ≠ some name) :
    (findFileInManifest img name).1 = .error (.fileNotFound name) := by
  rw [findFileInManifest_no_match img mf layers name hraw hjson
    (fun l hl e => hno l hl ((mapIndex_eq_iff _ _ _ hname).1 e))]

/-- C11, at the failing input: the file name is the empty string and the only
layer of the manifest carries no tuf.io/filename annotation at all, so no layer
carries an annotation whose value equals the file name; yet
`findFileInManifest` does not fail with the not-found error: it returns the
digest of that layer. -/
theorem findFileInManifest_empty_name_unannotated_layer :
    (∀ l ∈ [unannotatedLayer (digestOf 97)],
        l.Annotations.lookup TufFileNameAnnotation ≠ some [])
      ∧ (findFileInManifest (imageOfLayers [unannotatedLayer (digestOf 97)]) []).1
          = .ok exampleHash
      ∧ (findFileInManifest (imageOfLayers [unannotatedLayer (digestOf 97)]) []).1
          ≠ .error (.fileNotFound []) := by
  refine ⟨by decide, by decide, by decide⟩

/-! ## Properties of `ImageCache` -/

/-- C18: `ImageCache` has map semantics.  Get after Put of the same reference
returns the image put, found; of two Puts for a reference the last one wins;
a Put leaves the result of Get unchanged for every other reference; Get on a
cache made by `NewImageCache` reports not found for every reference.  Get is a
function of the cache alone and returns no new cache: it cannot change it. -/
theorem ImageCache_map_semantics (c : ImageCache) (r r2 : GoString) (i i2 : v1.Image) :
    (c.Put r i).Get r = some i
      ∧ ((c.Put r i).Put r i2).Get r = some i2
      ∧ (r2 ≠ r → (c.Put r i).Get r2 = c.Get r2)
      ∧ NewImageCache.Get r = none := by
  refine ⟨?_, ?_, ?_, rfl⟩
  · simp [ImageCache.Put, ImageCache.Get]
  · simp [ImageCache.Put, ImageCache.Get]
  · intro h
    simp [ImageCache.Put, ImageCache.Get, h]

/-- Witness of C18: putting an image under "a:1" leaves "b:1" not found in a
new cache. -/
theorem ImageCache_map_semantics_witness :
    ((NewImageCache.Put (ascii "a:1") rootImage).Get (ascii "b:1")) = NewImageCache.Get (ascii "b:1") :=
  (ImageCache_map_semantics NewImageCache (ascii "a:1") (ascii "b:1") rootImage rootImage).2.2.1
    (by decide)

/-! ## The shape of the targets branch -/

theorem TrimPrefix_of_prefix (p pre : GoString) (h : pre <+: p) :
    p = pre ++ strings.TrimPrefix p pre := by
  obtain ⟨r, rfl⟩ := h
  rw [TrimPrefix_append]

/-- The result of `parseUrlPath` does not depend on the cache of the fetcher. -/
theorem parseUrlPath_cache (d : RegistryFetcher) (c : ImageCache) (p : GoString) :
    RegistryFetcher.parseUrlPath { d with cache := c } p = d.parseUrlPath p := rfl

/-- C19: for every configuration and every logical path that `parseUrlPath`
resolves through the targets branch, the returned imageRef is
targetsRepo + ":" + tag with a tag that contains no "/"; and when the path
begins with targetsRepo + "/" it is rebuilt from the outputs: in the flat case
(no "/" after the prefix) tag = fileName and the path is
targetsRepo + "/" + fileName, in the nested case the path is
targetsRepo + "/" + tag + "/" + fileName. -/
theorem parseUrlPath_targets_tag (d : RegistryFetcher) (p : GoString)
    (hT : d.targetsRepo <:+: p) :
    ∃ tag fileName, d.parseUrlPath p = .ok (d.targetsRepo ++ ascii ":" ++ tag, fileName)
      ∧ slash ∉ tag
      ∧ (d.targetsRepo ++ ascii "/" <+: p →
          (slash ∉ strings.TrimPrefix p (d.targetsRepo ++ ascii "/") →
              tag = fileName ∧ p = d.targetsRepo ++ ascii "/" ++ fileName)
          ∧ (slash ∈ strings.TrimPrefix p (d.targetsRepo ++ ascii "/") →
              p = d.targetsRepo ++ ascii "/" ++ tag ++ ascii "/" ++ fileName)) := by
  have hc : strings.Contains p d.targetsRepo = true := (Contains_iff _ _).2 hT
  simp only [ascii_slash, ascii_colon]
  by_cases hs : slash ∈ strings.TrimPrefix p (d.targetsRepo ++ [slash])
  · obtain ⟨a, b, hab, ha⟩ := first_slash _ hs
    refine ⟨a, b, ?_, ha, ?_⟩
    · unfold RegistryFetcher.parseUrlPath
      simp only [hc, if_true, hab, Cut_slash_first a b ha]
      simp [Sprintf_s_colon_s]
    · intro hpre
      refine ⟨fun hn => absurd hs hn, fun _ => ?_⟩
      have hp := TrimPrefix_of_prefix p (d.targetsRepo ++ [slash]) hpre
      rw [hab] at hp
      rw [hp]
      simp
  · refine ⟨strings.TrimPrefix p (d.targetsRepo ++ [slash]),
      strings.TrimPrefix p (d.targetsRepo ++ [slash]), ?_, hs, ?_⟩
    · unfold RegistryFetcher.parseUrlPath
      simp only [hc, if_true, Cut_slash_absent _ hs]
      simp [Sprintf_s_colon_s]
    · intro hpre
      refine ⟨fun _ => ⟨rfl, ?_⟩, fun hn => absurd hn hs⟩
      exact TrimPrefix_of_prefix p (d.targetsRepo ++ [slash]) hpre

/-- Witness of C19 at the nested path "targets-repo/v1/app.bin". -/
theorem parseUrlPath_targets_tag_witness :
    ∃ tag fileName,
      exampleFetcher.parseUrlPath (ascii "targets-repo/v1/app.bin")
          = .ok (exampleFetcher.targetsRepo ++ ascii ":" ++ tag, fileName)
        ∧ slash ∉ tag
        ∧ ascii "targets-repo/v1/app.bin"
          = exampleFetcher.targetsRepo ++ ascii "/" ++ tag ++ ascii "/" ++ fileName := by
  obtain ⟨tag, fileName, h1, h2, h3⟩ :=
    parseUrlPath_targets_tag exampleFetcher (ascii "targets-repo/v1/app.bin")
      ((Contains_iff _ _).1 (by decide))
  exact ⟨tag, fileName, h1, h2, (h3 ((HasPrefix_iff _ _).1 (by decide))).2 (by decide)⟩

/-- Two paths that `parseUrlPath` resolves alike are downloaded alike. -/
theorem DownloadFile_of_parse_eq (reg : Registry) (d : RegistryFetcher) (p q : GoString)
    (maxLength timeout : Int) (h : d.parseUrlPath p = d.parseUrlPath q) :
    d.DownloadFile reg p maxLength timeout = d.DownloadFile reg q maxLength timeout := by
  unfold RegistryFetcher.DownloadFile
  rw [h]

/-- C20: `parseUrlPath` is not injective on target paths: with the targets
repository "targets-repo" the two distinct paths "targets-repo/a" (flat) and
"targets-repo/a/a" (nested) resolve to the same pair ("targets-repo:a", "a"),
so `DownloadFile` gives the same outcome for both, whatever the registry, the
cache and the bounds are. -/
theorem parseUrlPath_not_injective :
    ascii "targets-repo/a" ≠ ascii "targets-repo/a/a"
      ∧ exampleFetcher.parseUrlPath (ascii "targets-repo/a")
          = .ok (ascii "targets-repo:a", ascii "a")
      ∧ exampleFetcher.parseUrlPath (ascii "targets-repo/a/a")
          = .ok (ascii "targets-repo:a", ascii "a")
      ∧ ∀ (reg : Registry) (c : ImageCache) (maxLength timeout : Int),
          RegistryFetcher.DownloadFile reg { exampleFetcher with cache := c }
              (ascii "targets-repo/a") maxLength timeout
            = RegistryFetcher.DownloadFile reg { exampleFetcher with cache := c }
              (ascii "targets-repo/a/a") maxLength timeout := by
  refine ⟨by decide, by decide, by decide, ?_⟩
  intro reg c maxLength timeout
  have h : exampleFetcher.parseUrlPath (ascii "targets-repo/a")
      = exampleFetcher.parseUrlPath (ascii "targets-repo/a/a") := by decide
  exact DownloadFile_of_parse_eq reg { exampleFetcher with cache := c } _ _ maxLength timeout
    ((parseUrlPath_cache exampleFetcher c _).trans (h.trans (parseUrlPath_cache exampleFetcher c _).symm))

/-! ## Lemmas on `DownloadFile` -/

theorem parseUrlPath_neither (d : RegistryFetcher) (p : GoString)
    (hT : ¬ d.targetsRepo <:+: p) (hM : ¬ d.metadataRepo <:+: p) :
    d.parseUrlPath p = .error (.invalidUrlPath p) := by
  have hc : strings.Contains p d.targetsRepo = false := (Contains_eq_false_iff _ _).2 hT
  have hm : strings.Contains p d.metadataRepo = false := (Contains_eq_false_iff _ _).2 hM
  unfold RegistryFetcher.parseUrlPath
  simp [hc, hm]

theorem DownloadFile_invalid (reg : Registry) (d : RegistryFetcher) (p : GoString)
    (maxLength timeout : Int) (e : Error) (h : d.parseUrlPath p = .error e) :
    d.DownloadFile reg p maxLength timeout = (.error e, d, []) := by
  unfold RegistryFetcher.DownloadFile
  rw [h]

theorem DownloadFile_cached (reg : Registry) (d : RegistryFetcher) (p : GoString)
    (maxLength timeout : Int) (imgRef fileName : GoString) (img : v1.Image)
    (h : d.parseUrlPath p = .ok (imgRef, fileName)) (hc : d.cache.Get imgRef = some img) :
    d.DownloadFile reg p maxLength timeout = downloadFromImage d img fileName maxLength [] := by
  unfold RegistryFetcher.DownloadFile
  rw [h]
  simp only [hc]

theorem DownloadFile_pull_failed (reg : Registry) (d : RegistryFetcher) (p : GoString)
    (maxLength timeout : Int) (imgRef fileName : GoString) (e : Error)
    (h : d.parseUrlPath p = .ok (imgRef, fileName)) (hc : d.cache.Get imgRef = none)
    (hp : reg.Pull imgRef d.httpUserAgent timeout = .error e) :
    d.DownloadFile reg p maxLength timeout = (.error e, d, [.Pull imgRef]) := by
  unfold RegistryFetcher.DownloadFile
  rw [h]
  simp only [hc, hp]

theorem DownloadFile_pulled (reg : Registry) (d : RegistryFetcher) (p : GoString)
    (maxLength timeout : Int) (imgRef fileName : GoString) (img : v1.Image)
    (h : d.parseUrlPath p = .ok (imgRef, fileName)) (hc : d.cache.Get imgRef = none)
    (hp : reg.Pull imgRef d.httpUserAgent timeout = .ok img) :
    d.DownloadFile reg p maxLength timeout
      = downloadFromImage { d with cache := d.cache.Put imgRef img } img fileName maxLength
          [.Pull imgRef] := by
  unfold RegistryFetcher.DownloadFile
  rw [h]
  simp only [hc, hp]

/-- The only collaborator call of `findFileInManifest` is the one for the raw
manifest. -/
theorem findFileInManifest_calls (img : v1.Image) (name : GoString) :
    (findFileInManifest img name).2 = [.RawManifest] := by
  unfold findFileInManifest
  split
  · rfl
  · split
    · rfl
    · dsimp only
      split
      · rfl
      · split <;> rfl

/-- The collaborator calls of `getDataFromLayer` do not include a pull. -/
theorem getDataFromLayer_calls (img : v1.Image) (h : v1.Hash) (maxLength : Int) :
    ∀ c ∈ (getDataFromLayer img h maxLength).2, ∀ ref, c ≠ .Pull ref := by
  unfold getDataFromLayer
  split
  · simp
  · split
    · simp
    · split
      · simp
      · split
        · simp
        · dsimp only
          split
          · simp
          · split <;> simp

/-- The fetcher is handed through `downloadFromImage` unchanged. -/
theorem downloadFromImage_fetcher (d : RegistryFetcher) (img : v1.Image) (fileName : GoString)
    (maxLength : Int) (calls : List Call) :
    (downloadFromImage d img fileName maxLength calls).2.1 = d := by
  unfold downloadFromImage
  split
  · rfl
  · split <;> rfl

/-- The result of `downloadFromImage` depends on the image, the file name and
the bound only. -/
theorem downloadFromImage_result (d d2 : RegistryFetcher) (img : v1.Image) (fileName : GoString)
    (maxLength : Int) (calls calls2 : List Call) :
    (downloadFromImage d img fileName maxLength calls).1
      = (downloadFromImage d2 img fileName maxLength calls2).1 := by
  unfold downloadFromImage
  split
  · rfl
  · split <;> rfl

/-- The function `downloadFromImage` adds no pull to the calls made so far. -/
theorem downloadFromImage_calls (d : RegistryFetcher) (img : v1.Image) (fileName : GoString)
    (maxLength : Int) (calls : List Call) (ref : GoString)
    (hc : Call.Pull ref ∉ calls) :
    Call.Pull ref ∉ (downloadFromImage d img fileName maxLength calls).2.2 := by
  have hf := findFileInManifest_calls img fileName
  unfold downloadFromImage
  split
  · rename_i e calls2 heq
    rw [heq] at hf
    simp only at hf
    subst hf
    simpa using hc
  · rename_i hash calls2 heq
    rw [heq] at hf
    simp only at hf
    subst hf
    have hg := getDataFromLayer_calls img hash maxLength
    split
    · rename_i e calls3 heq3
      rw [heq3] at hg
      simp only [List.mem_append, not_or]
      exact ⟨⟨hc, by simp⟩, fun hm => hg _ hm ref rfl⟩
    · rename_i data calls3 heq3
      rw [heq3] at hg
      simp only [List.mem_append, not_or]
      exact ⟨⟨hc, by simp⟩, fun hm => hg _ hm ref rfl⟩

/-! ## Properties of `DownloadFile` -/

/-- C12: for every fetcher state and logical path, a second `DownloadFile` call
with the same arguments, made on the fetcher the first call leaves behind and
against the same registry, returns the same result as the first; and if the
first call obtained the image, by cache hit or by a successful pull, the second
call makes no pull at all. -/
theorem DownloadFile_twice (reg : Registry) (d : RegistryFetcher) (p : GoString)
    (maxLength timeout : Int) :
    (RegistryFetcher.DownloadFile reg (d.DownloadFile reg p maxLength timeout).2.1 p
        maxLength timeout).1 = (d.DownloadFile reg p maxLength timeout).1
      ∧ ((∃ imgRef fileName, d.parseUrlPath p = .ok (imgRef, fileName)
            ∧ ((∃ img, d.cache.Get imgRef = some img)
              ∨ ∃ img, reg.Pull imgRef d.httpUserAgent timeout = .ok img)) →
          ∀ ref, Call.Pull ref ∉
            (RegistryFetcher.DownloadFile reg (d.DownloadFile reg p maxLength timeout).2.1 p
              maxLength timeout).2.2) := by
  cases hparse : d.parseUrlPath p with
  | error e =>
    rw [DownloadFile_invalid reg d p maxLength timeout e hparse]
    refine ⟨by rw [DownloadFile_invalid reg d p maxLength timeout e hparse], ?_⟩
    rintro ⟨imgRef, fileName, h, _⟩
    cases h
  | ok pair =>
    obtain ⟨r, f⟩ := pair
    cases hget : d.cache.Get r with
    | some img =>
      have h1 := DownloadFile_cached reg d p maxLength timeout r f img hparse hget
      have hd : (d.DownloadFile reg p maxLength timeout).2.1 = d := by
        rw [h1]; exact downloadFromImage_fetcher _ _ _ _ _
      rw [hd]
      refine ⟨rfl, fun _ ref => ?_⟩
      rw [h1]
      exact downloadFromImage_calls d img f maxLength [] ref (by simp)
    | none =>
      cases hpull : reg.Pull r d.httpUserAgent timeout with
      | error e =>
        have h1 := DownloadFile_pull_failed reg d p maxLength timeout r f e hparse hget hpull
        have hd : (d.DownloadFile reg p maxLength timeout).2.1 = d := by rw [h1]
        rw [hd]
        refine ⟨rfl, ?_⟩
        rintro ⟨imgRef, fileName, h, hob⟩
        have hr : imgRef = r := by
          have := Except.ok.inj h
          exact (Prod.mk.inj this).1.symm
        subst hr
        rcases hob with ⟨img, hi⟩ | ⟨img, hi⟩
        · rw [hget] at hi; cases hi
        · rw [hpull] at hi; cases hi
      | ok img =>
        have h1 := DownloadFile_pulled reg d p maxLength timeout r f img hparse hget hpull
        have hd : (d.DownloadFile reg p maxLength timeout).2.1
            = { d with cache := d.cache.Put r img } := by
          rw [h1]; exact downloadFromImage_fetcher _ _ _ _ _
        have hget2 : ImageCache.Get (d.cache.Put r img) r = some img := by
          simp [ImageCache.Put, ImageCache.Get]
        have h2 := DownloadFile_cached reg { d with cache := d.cache.Put r img } p maxLength
          timeout r f img ((parseUrlPath_cache d _ p).trans hparse) hget2
        rw [hd, h2]
        refine ⟨?_, fun _ ref => ?_⟩
        · rw [h1]
          exact downloadFromImage_result _ _ _ _ _ _ _
        · exact downloadFromImage_calls _ img f maxLength [] ref (by simp)

/-- Witness of C12: a new fetcher downloads "metadata-repo/2.root.json" twice;
the first call pulls the image, the second returns the same bytes without a
pull. -/
theorem DownloadFile_twice_witness :
    (RegistryFetcher.DownloadFile (registryWith (ascii "metadata-repo:latest") rootImage)
        (exampleFetcher.DownloadFile (registryWith (ascii "metadata-repo:latest") rootImage)
          (ascii "metadata-repo/2.root.json") 5 0).2.1
        (ascii "metadata-repo/2.root.json") 5 0).1
        = (exampleFetcher.DownloadFile (registryWith (ascii "metadata-repo:latest") rootImage)
          (ascii "metadata-repo/2.root.json") 5 0).1
      ∧ ∀ ref, Call.Pull ref ∉
        (RegistryFetcher.DownloadFile (registryWith (ascii "metadata-repo:latest") rootImage)
          (exampleFetcher.DownloadFile (registryWith (ascii "metadata-repo:latest") rootImage)
            (ascii "metadata-repo/2.root.json") 5 0).2.1
          (ascii "metadata-repo/2.root.json") 5 0).2.2 :=
  have h := DownloadFile_twice (registryWith (ascii "metadata-repo:latest") rootImage)
    exampleFetcher (ascii "metadata-repo/2.root.json") 5 0
  ⟨h.1, h.2 ⟨ascii "metadata-repo:latest", ascii "2.root.json", by decide,
    Or.inr ⟨rootImage, rfl⟩⟩⟩

/-- C13: every `DownloadFile` call preserves the existing cache entries: each
reference present in the cache before the call maps to the same image after
it; when the resolved reference was absent and the pull succeeded, the cache
after the call is the cache before it with the pulled image put under that
reference, whatever happens with the layer afterwards; in every other case
(invalid path, cache hit, failed pull) the cache is unchanged.  The other fields
of the fetcher never change. -/
theorem DownloadFile_cache (reg : Registry) (d : RegistryFetcher) (p : GoString)
    (maxLength timeout : Int) :
    (∀ r img, d.cache.Get r = some img →
        (d.DownloadFile reg p maxLength timeout).2.1.cache.Get r = some img)
      ∧ (∀ imgRef fileName img, d.parseUrlPath p = .ok (imgRef, fileName) →
          d.cache.Get imgRef = none → reg.Pull imgRef d.httpUserAgent timeout = .ok img →
          (d.DownloadFile reg p maxLength timeout).2.1.cache = d.cache.Put imgRef img
            ∧ (d.DownloadFile reg p maxLength timeout).2.1.cache.Get imgRef = some img
            ∧ ∀ r, r ≠ imgRef →
                (d.DownloadFile reg p maxLength timeout).2.1.cache.Get r = d.cache.Get r)
      ∧ ((¬ ∃ imgRef fileName img, d.parseUrlPath p = .ok (imgRef, fileName)
            ∧ d.cache.Get imgRef = none ∧ reg.Pull imgRef d.httpUserAgent timeout = .ok img) →
          (d.DownloadFile reg p maxLength timeout).2.1 = d)
      ∧ (d.DownloadFile reg p maxLength timeout).2.1
          = { d with cache := (d.DownloadFile reg p maxLength timeout).2.1.cache } := by
  cases hparse : d.parseUrlPath p with
  | error e =>
    rw [DownloadFile_invalid reg d p maxLength timeout e hparse]
    refine ⟨fun r img h => h, ?_, fun _ => rfl, rfl⟩
    intro imgRef fileName img h
    cases h
  | ok pair =>
    obtain ⟨r, f⟩ := pair
    cases hget : d.cache.Get r with
    | some img0 =>
      have hd : (d.DownloadFile reg p maxLength timeout).2.1 = d := by
        rw [DownloadFile_cached reg d p maxLength timeout r f img0 hparse hget]
        exact downloadFromImage_fetcher _ _ _ _ _
      rw [hd]
      refine ⟨fun r img h => h, ?_, fun _ => rfl, rfl⟩
      intro imgRef fileName img h hnone
      have hr : imgRef = r := (Prod.mk.inj (Except.ok.inj h)).1.symm
      subst hr
      rw [hget] at hnone
      cases hnone
    | none =>
      cases hpull : reg.Pull r d.httpUserAgent timeout with
      | error e =>
        have hd : (d.DownloadFile reg p maxLength timeout).2.1 = d := by
          rw [DownloadFile_pull_failed reg d p maxLength timeout r f e hparse hget hpull]
        rw [hd]
        refine ⟨fun r img h => h, ?_, fun _ => rfl, rfl⟩
        intro imgRef fileName img h _ hp
        have hr : imgRef = r := (Prod.mk.inj (Except.ok.inj h)).1.symm
        subst hr
        rw [hpull] at hp
        cases hp
      | ok img0 =>
        have hd : (d.DownloadFile reg p maxLength timeout).2.1
            = { d with cache := d.cache.Put r img0 } := by
          rw [DownloadFile_pulled reg d p maxLength timeout r f img0 hparse hget hpull]
          exact downloadFromImage_fetcher _ _ _ _ _
        rw [hd]
        refine ⟨?_, ?_, ?_, rfl⟩
        · intro r2 img h
          have hne : r2 ≠ r := by
            intro e
            rw [e, hget] at h
            cases h
          simpa [ImageCache.Put, ImageCache.Get, hne] using h
        · intro imgRef fileName img h _ hp
          have hr : imgRef = r := (Prod.mk.inj (Except.ok.inj h)).1.symm
          subst hr
          rw [hpull] at hp
          have hi : img0 = img := Except.ok.inj hp
          subst hi
          refine ⟨rfl, by simp [ImageCache.Put, ImageCache.Get], ?_⟩
          intro r2 hne
          simp [ImageCache.Put, ImageCache.Get, hne]
        · intro hn
          exact absurd ⟨r, f, img0, rfl, hget, hpull⟩ hn

/-- Witness of C13: a new fetcher pulls "metadata-repo:latest" for a file the
image does not hold; the download fails, and the image is in the cache. -/
theorem DownloadFile_cache_witness :
    (exampleFetcher.DownloadFile (registryWith (ascii "metadata-repo:latest") rootImage)
        (ascii "metadata-repo/1.root.json") 5 0).1 = .error (.ErrDownloadHTTP 404)
      ∧ (exampleFetcher.DownloadFile (registryWith (ascii "metadata-repo:latest") rootImage)
          (ascii "metadata-repo/1.root.json") 5 0).2.1.cache.Get (ascii "metadata-repo:latest")
        = some rootImage :=
  ⟨by decide,
    ((DownloadFile_cache (registryWith (ascii "metadata-repo:latest") rootImage) exampleFetcher
      (ascii "metadata-repo/1.root.json") 5 0).2.1 (ascii "metadata-repo:latest")
      (ascii "1.root.json") rootImage (by decide) rfl rfl).2.1⟩

/-- Whatever error `findFileInManifest` returns, `downloadFromImage` turns it
into the download error with status 404 and reads no layer. -/
theorem downloadFromImage_locate_error (d : RegistryFetcher) (img : v1.Image)
    (fileName : GoString) (maxLength : Int) (calls : List Call) (e : Error)
    (h : (findFileInManifest img fileName).1 = .error e) :
    downloadFromImage d img fileName maxLength calls
      = (.error (.ErrDownloadHTTP StatusNotFound), d, calls ++ [.RawManifest]) := by
  have hf := findFileInManifest_calls img fileName
  unfold downloadFromImage
  split
  · rename_i e2 calls2 heq
    rw [heq] at hf
    simp only at hf
    rw [hf]
  · rename_i hash calls2 heq
    rw [heq] at h
    cases h

/-- C14, at the failing inputs: the image is pulled, and locating the layer
fails because the raw manifest cannot be obtained (collaborator error 0),
because the manifest is not valid JSON (collaborator error 2), or because the
digest string "sha256:abc" of the matching layer is ill formed; in all three
cases `DownloadFile` returns the download error with status 404 and not the
underlying cause. -/
theorem DownloadFile_masks_locate_errors :
    ((findFileInManifest threeByteImage (ascii "2.root.json")).1 = .error (.external 0)
        ∧ (exampleFetcher.DownloadFile (registryWith (ascii "metadata-repo:latest") threeByteImage)
            (ascii "metadata-repo/2.root.json") 5 0).1 = .error (.ErrDownloadHTTP 404))
      ∧ ((findFileInManifest malformedManifestImage (ascii "2.root.json")).1
            = .error (.external 2)
        ∧ (exampleFetcher.DownloadFile
            (registryWith (ascii "metadata-repo:latest") malformedManifestImage)
            (ascii "metadata-repo/2.root.json") 5 0).1 = .error (.ErrDownloadHTTP 404))
      ∧ ((findFileInManifest
            (imageOfLayers [annotatedLayer (ascii "2.root.json") (ascii "sha256:abc")])
            (ascii "2.root.json")).1 = .error (.hashParse (ascii "sha256:abc"))
        ∧ (exampleFetcher.DownloadFile
            (registryWith (ascii "metadata-repo:latest")
              (imageOfLayers [annotatedLayer (ascii "2.root.json") (ascii "sha256:abc")]))
            (ascii "metadata-repo/2.root.json") 5 0).1 = .error (.ErrDownloadHTTP 404)) := by
  refine ⟨⟨by decide, by decide⟩, ⟨by decide, by decide⟩, ⟨by decide, by decide⟩⟩

/-- When the comparison of the source, the annotation value of a layer (the
empty string when the annotation is absent) against the resolved file name,
fails for every layer of the decoded manifest, `DownloadFile` on an obtained
image returns no bytes and fails with the download error of status 404, and it
reads no layer: its only collaborator calls are the pull, on a cache miss, and
the call for the raw manifest. -/
theorem DownloadFile_no_match (reg : Registry) (d : RegistryFetcher) (p : GoString)
    (maxLength timeout : Int) (imgRef fileName : GoString) (img : v1.Image)
    (mf : RawManifest) (layers : List Layer)
    (hparse : d.parseUrlPath p = .ok (imgRef, fileName))
    (himg : d.cache.Get imgRef = some img
      ∨ (d.cache.Get imgRef = none ∧ reg.Pull imgRef d.httpUserAgent timeout = .ok img))
    (hraw : img.RawManifest = .ok mf) (hjson : json.Unmarshal mf = .ok ⟨layers⟩)
    (hno : ∀ l ∈ layers, mapIndex l.Annotations TufFileNameAnnotation ≠ fileName) :
    (d.DownloadFile reg p maxLength timeout).1 = .error (.ErrDownloadHTTP StatusNotFound)
      ∧ StatusNotFound = 404
      ∧ ((d.DownloadFile reg p maxLength timeout).2.2 = [.RawManifest]
        ∨ (d.DownloadFile reg p maxLength timeout).2.2 = [.Pull imgRef, .RawManifest]) := by
  have hfind : (findFileInManifest img fileName).1 = .error (.fileNotFound fileName) := by
    rw [findFileInManifest_no_match img mf layers fileName hraw hjson hno]
  rcases himg with hc | ⟨hc, hp⟩
  · rw [DownloadFile_cached reg d p maxLength timeout imgRef fileName img hparse hc,
      downloadFromImage_locate_error d img fileName maxLength [] _ hfind]
    exact ⟨rfl, rfl, Or.inl rfl⟩
  · rw [DownloadFile_pulled reg d p maxLength timeout imgRef fileName img hparse hc hp,
      downloadFromImage_locate_error _ img fileName maxLength _ _ hfind]
    exact ⟨rfl, rfl, Or.inr rfl⟩

/-- For a non-empty resolved file name: when no layer of the decoded manifest
carries the annotation tuf.io/filename with that value, `DownloadFile` on an
obtained image returns no bytes and fails with the download error of status
404, and it reads no layer. -/
theorem DownloadFile_not_found_nonempty (reg : Registry) (d : RegistryFetcher) (p : GoString)
    (maxLength timeout : Int) (imgRef fileName : GoString) (img : v1.Image)
    (mf : RawManifest) (layers : List Layer)
    (hparse : d.parseUrlPath p = .ok (imgRef, fileName))
    (himg : d.cache.Get imgRef = some img
      ∨ (d.cache.Get imgRef = none ∧ reg.Pull imgRef d.httpUserAgent timeout = .ok img))
    (hraw : img.RawManifest = .ok mf) (hjson : json.Unmarshal mf = .ok ⟨layers⟩)
    (hname : fileName ≠ [])
    (hno : ∀ l ∈ layers, l.Annotations.lookup TufFileNameAnnotation ≠ some fileName) :
    (d.DownloadFile reg p maxLength timeout).1 = .error (.ErrDownloadHTTP StatusNotFound)
      ∧ ((d.DownloadFile reg p maxLength timeout).2.2 = [.RawManifest]
        ∨ (d.DownloadFile reg p maxLength timeout).2.2 = [.Pull imgRef, .RawManifest]) := by
  have h := DownloadFile_no_match reg d p maxLength timeout imgRef fileName img mf layers hparse
    himg hraw hjson (fun l hl e => hno l hl ((mapIndex_eq_iff _ _ _ hname).1 e))
  exact ⟨h.1, h.2.2⟩

/-- Example for `DownloadFile_not_found_nonempty`: the image
"metadata-repo:latest" holds "2.root.json" only; asking for "1.root.json" gives
the error of status 404 after the pull and the manifest call. -/
theorem DownloadFile_not_found_nonempty_example :
    (exampleFetcher.DownloadFile (registryWith (ascii "metadata-repo:latest") rootImage)
        (ascii "metadata-repo/1.root.json") 5 0).1 = .error (.ErrDownloadHTTP 404)
      ∧ ((exampleFetcher.DownloadFile (registryWith (ascii "metadata-repo:latest") rootImage)
          (ascii "metadata-repo/1.root.json") 5 0).2.2 = [.RawManifest]
        ∨ (exampleFetcher.DownloadFile (registryWith (ascii "metadata-repo:latest") rootImage)
          (ascii "metadata-repo/1.root.json") 5 0).2.2
            = [.Pull (ascii "metadata-repo:latest"), .RawManifest]) :=
  DownloadFile_not_found_nonempty (registryWith (ascii "metadata-repo:latest") rootImage)
    exampleFetcher (ascii "metadata-repo/1.root.json") 5 0 (ascii "metadata-repo:latest")
    (ascii "1.root.json") rootImage ⟨.ok ⟨[annotatedLayer (ascii "2.root.json") (digestOf 97)]⟩⟩
    [annotatedLayer (ascii "2.root.json") (digestOf 97)] (by decide) (Or.inr ⟨rfl, rfl⟩) rfl rfl
    (by decide) (by decide)

/-- C15, at the failing input: the path "targets-repo/sub/" resolves to the
reference "targets-repo:sub" and the empty file name; the image is pulled; its
manifest has one layer, which carries no tuf.io/filename annotation, so no
layer matches the resolved file name.  Yet `DownloadFile` does not fail with
the download error of status 404: it looks the un-annotated layer up by its
digest, reads it and returns its bytes 1, 2, 3. -/
theorem DownloadFile_empty_name_reads_unannotated_layer :
    exampleFetcher.parseUrlPath (ascii "targets-repo/sub/") = .ok (ascii "targets-repo:sub", [])
      ∧ (registryWith (ascii "targets-repo:sub") unannotatedImage).Pull (ascii "targets-repo:sub")
          exampleFetcher.httpUserAgent 0 = .ok unannotatedImage
      ∧ unannotatedImage.RawManifest = .ok ⟨.ok ⟨[unannotatedLayer (digestOf 97)]⟩⟩
      ∧ (∀ l ∈ [unannotatedLayer (digestOf 97)],
          l.Annotations.lookup TufFileNameAnnotation ≠ some [])
      ∧ (exampleFetcher.DownloadFile (registryWith (ascii "targets-repo:sub") unannotatedImage)
          (ascii "targets-repo/sub/") 5 0).1 = .ok [1, 2, 3]
      ∧ (exampleFetcher.DownloadFile (registryWith (ascii "targets-repo:sub") unannotatedImage)
          (ascii "targets-repo/sub/") 5 0).1 ≠ .error (.ErrDownloadHTTP StatusNotFound)
      ∧ (exampleFetcher.DownloadFile (registryWith (ascii "targets-repo:sub") unannotatedImage)
          (ascii "targets-repo/sub/") 5 0).2.2
        = [.Pull (ascii "targets-repo:sub"), .RawManifest, .LayerByDigest exampleHash, .Size,
            .Uncompressed, .Read 6] := by
  refine ⟨by decide, rfl, rfl, by decide, by decide, by decide, by decide⟩

/-- C17: for every `DownloadFile` call: if the path contains neither repository
name, the call fails with the invalid-path error of the resolver, makes no
collaborator call and leaves the fetcher as it is, and this outcome is the same
for every cache; and if the resolved reference is not cached and the pull fails
with error e, the call fails with exactly e, its only collaborator call is the
one pull, and the fetcher is left as it is. -/
theorem DownloadFile_early_failures (reg : Registry) (d : RegistryFetcher) (p : GoString)
    (maxLength timeout : Int) :
    ((¬ d.targetsRepo <:+: p ∧ ¬ d.metadataRepo <:+: p) →
        d.DownloadFile reg p maxLength timeout = (.error (.invalidUrlPath p), d, [])
          ∧ ∀ c : ImageCache,
              RegistryFetcher.DownloadFile reg { d with cache := c } p maxLength timeout
                = (.error (.invalidUrlPath p), { d with cache := c }, []))
      ∧ (∀ imgRef fileName e, d.parseUrlPath p = .ok (imgRef, fileName) →
          d.cache.Get imgRef = none → reg.Pull imgRef d.httpUserAgent timeout = .error e →
          d.DownloadFile reg p maxLength timeout = (.error e, d, [.Pull imgRef])) := by
  refine ⟨?_, ?_⟩
  · rintro ⟨hT, hM⟩
    refine ⟨DownloadFile_invalid reg d p maxLength timeout _ (parseUrlPath_neither d p hT hM), ?_⟩
    intro c
    exact DownloadFile_invalid reg _ p maxLength timeout _
      (parseUrlPath_neither { d with cache := c } p hT hM)
  · intro imgRef fileName e hparse hget hpull
    exact DownloadFile_pull_failed reg d p maxLength timeout imgRef fileName e hparse hget hpull

/-- Witness of C17: "other/file" is rejected without any call; with a registry
in which every pull fails with error 1, "targets-repo/app.bin" fails with error
1 after one pull. -/
theorem DownloadFile_early_failures_witness :
    exampleFetcher.DownloadFile emptyRegistry (ascii "other/file") 5 0
        = (.error (.invalidUrlPath (ascii "other/file")), exampleFetcher, [])
      ∧ exampleFetcher.DownloadFile emptyRegistry (ascii "targets-repo/app.bin") 5 0
        = (.error (.external 1), exampleFetcher, [.Pull (ascii "targets-repo:app.bin")]) :=
  ⟨((DownloadFile_early_failures emptyRegistry exampleFetcher (ascii "other/file") 5 0).1
      ⟨(Contains_eq_false_iff _ _).1 (by decide), (Contains_eq_false_iff _ _).1 (by decide)⟩).1,
    (DownloadFile_early_failures emptyRegistry exampleFetcher (ascii "targets-repo/app.bin") 5 0).2
      (ascii "targets-repo:app.bin") (ascii "app.bin") (.external 1) (by decide) rfl rfl⟩

/-- The first layer whose annotation equals a non-empty name, with a
well-formed digest, is what `findFileInManifest` returns. -/
theorem findFileInManifest_found (img : v1.Image) (mf : RawManifest)
    (pre post : List Layer) (layer : Layer) (name : GoString) (hash : v1.Hash)
    (hraw : img.RawManifest = .ok mf) (hjson : json.Unmarshal mf = .ok ⟨pre ++ layer :: post⟩)
    (hname : name ≠ [])
    (hpre : ∀ l ∈ pre, l.Annotations.lookup TufFileNameAnnotation ≠ some name)
    (hl : layer.Annotations.lookup TufFileNameAnnotation = some name)
    (hdigest : v1.NewHash layer.Digest = .ok hash) :
    findFileInManifest img name = (.ok hash, [.RawManifest]) := by
  have hscan : scanLayers (pre ++ layer :: post) name = layer.Digest :=
    scanLayers_first pre post layer name
      (fun l hmem e => hpre l hmem ((mapIndex_eq_iff _ _ _ hname).1 e))
      ((mapIndex_eq_iff _ _ _ hname).2 hl)
  have hne : layer.Digest ≠ [] := by
    intro e
    rw [e, NewHash_empty] at hdigest
    cases hdigest
  unfold findFileInManifest
  simp only [hraw, hjson, hscan, hne, if_false, hdigest]

/-- The function `downloadFromImage` on an image in which the file is found and
read. -/
theorem downloadFromImage_ok (d : RegistryFetcher) (img : v1.Image) (fileName : GoString)
    (maxLength : Int) (calls : List Call) (hash : v1.Hash) (data : Bytes)
    (hfind : (findFileInManifest img fileName).1 = .ok hash)
    (hread : (getDataFromLayer img hash maxLength).1 = .ok data) :
    (downloadFromImage d img fileName maxLength calls).1 = .ok data := by
  unfold downloadFromImage
  split
  · rename_i e calls2 heq
    rw [heq] at hfind
    cases hfind
  · rename_i hash2 calls2 heq
    rw [heq] at hfind
    have hh : hash2 = hash := Except.ok.inj hfind
    subst hh
    split
    · rename_i e calls3 heq3
      rw [heq3] at hread
      cases hread
    · rename_i data2 calls3 heq3
      rw [heq3] at hread
      exact hread

/-- C16, counterexample: the registry holds the image "metadata-repo:latest"
with a layer annotated "2.root.json" of content 1, 2, 3, and maxLength is 5.
With the targets repository "repo", whose name occurs in the path
"metadata-repo/2.root.json", the path is resolved by the targets rule to the
reference "repo:metadata-repo" and `DownloadFile` fails with the pull error.
With the file name "v2/2.root.json", which contains a "/", the layer annotated
"v2/2.root.json" is not found, because the resolved file name is the last
path segment "2.root.json". -/
theorem DownloadFile_metadata_path_misresolved :
    (registryWith (ascii "metadata-repo:latest") rootImage).Pull (ascii "metadata-repo:latest")
        [] 0 = .ok rootImage
      ∧ overlappingFetcher.parseUrlPath (ascii "metadata-repo/2.root.json")
          = .ok (ascii "repo:metadata-repo", ascii "2.root.json")
      ∧ (overlappingFetcher.DownloadFile (registryWith (ascii "metadata-repo:latest") rootImage)
          (ascii "metadata-repo/2.root.json") 5 0).1 = .error (.external 1)
      ∧ exampleFetcher.parseUrlPath (ascii "metadata-repo/v2/2.root.json")
          = .ok (ascii "metadata-repo:latest", ascii "2.root.json")
      ∧ (exampleFetcher.DownloadFile
          (registryWith (ascii "metadata-repo:latest") nestedNameImage)
          (ascii "metadata-repo/v2/2.root.json") 5 0).1 = .error (.ErrDownloadHTTP 404) := by
  refine ⟨rfl, by decide, by decide, by decide, by decide⟩

/-- C16, amended: for every fetcher and every file name f that is non-empty and
contains no "/", such that the path metadataRepo + "/" + f does not contain the
targets-repo name: if the image of the reference metadataRepo + ":" +
metadataTag, taken from the cache or, on a cache miss, pulled successfully, has
as the first layer annotated tuf.io/filename = f a layer with a well-formed
digest whose declared size is at most maxLength and whose content is the bytes
B with |B| <= maxLength, and maxLength is below math.MaxInt64, then
`DownloadFile` returns exactly B with no error. -/
theorem DownloadFile_metadata_end_to_end (reg : Registry) (d : RegistryFetcher)
    (f : GoString) (maxLength timeout : Int) (img : v1.Image) (mf : RawManifest)
    (pre post : List Layer) (layer : Layer) (hash : v1.Hash) (fileLayer : v1.Layer)
    (length : Int) (B : Bytes)
    (hT : ¬ d.targetsRepo <:+: d.metadataRepo ++ ascii "/" ++ f)
    (hf : f ≠ []) (hfs : slash ∉ f)
    (himg : d.cache.Get (d.metadataRepo ++ ascii ":" ++ d.metadataTag) = some img
      ∨ (d.cache.Get (d.metadataRepo ++ ascii ":" ++ d.metadataTag) = none
        ∧ reg.Pull (d.metadataRepo ++ ascii ":" ++ d.metadataTag) d.httpUserAgent timeout
          = .ok img))
    (hraw : img.RawManifest = .ok mf) (hjson : json.Unmarshal mf = .ok ⟨pre ++ layer :: post⟩)
    (hpre : ∀ l ∈ pre, l.Annotations.lookup TufFileNameAnnotation ≠ some f)
    (hl : layer.Annotations.lookup TufFileNameAnnotation = some f)
    (hdigest : v1.NewHash layer.Digest = .ok hash)
    (hL : img.LayerByDigest hash = .ok fileLayer) (hS : fileLayer.Size = .ok length)
    (hle : length ≤ maxLength) (hU : fileLayer.Uncompressed = .ok ⟨B, none⟩)
    (hB : (B.length : Int) ≤ maxLength) (hmax : maxLength < MaxInt64) :
    (d.DownloadFile reg (d.metadataRepo ++ ascii "/" ++ f) maxLength timeout).1 = .ok B := by
  simp only [ascii_slash, ascii_colon] at hT himg ⊢
  have hM : d.metadataRepo <:+: d.metadataRepo ++ [slash] ++ f :=
    ⟨[], [slash] ++ f, by simp⟩
  have hparse : d.parseUrlPath (d.metadataRepo ++ [slash] ++ f)
      = .ok (d.metadataRepo ++ [colon] ++ d.metadataTag, f) := by
    rw [parseUrlPath_metadata_branch d _ hT hM]
    unfold specMetadataRule
    have hb : path.Base (d.metadataRepo ++ [slash] ++ f) = f := by
      simpa using Base_last_segment d.metadataRepo f hf hfs
    rw [hb]
  have hfind : (findFileInManifest img f).1 = .ok hash := by
    rw [findFileInManifest_found img mf pre post layer f hash hraw hjson hf hpre hl hdigest]
  have hread : (getDataFromLayer img hash maxLength).1 = .ok B :=
    getDataFromLayer_complete_below_MaxInt64 img hash maxLength fileLayer length B hL hS hle hU
      hB hmax
  rcases himg with hc | ⟨hc, hp⟩
  · rw [DownloadFile_cached reg d _ maxLength timeout _ f img hparse hc]
    exact downloadFromImage_ok d img f maxLength [] hash B hfind hread
  · rw [DownloadFile_pulled reg d _ maxLength timeout _ f img hparse hc hp]
    exact downloadFromImage_ok _ img f maxLength _ hash B hfind hread

/-- Witness of C16 (amended): the path "metadata-repo/2.root.json" with the tag
"latest" and the image holding "2.root.json" with content 1, 2, 3. -/
theorem DownloadFile_metadata_end_to_end_witness :
    (exampleFetcher.DownloadFile (registryWith (ascii "metadata-repo:latest") rootImage)
        (ascii "metadata-repo/2.root.json") 5 0).1 = .ok [1, 2, 3] :=
  DownloadFile_metadata_end_to_end (registryWith (ascii "metadata-repo:latest") rootImage)
    exampleFetcher (ascii "2.root.json") 5 0 rootImage
    ⟨.ok ⟨[annotatedLayer (ascii "2.root.json") (digestOf 97)]⟩⟩ [] []
    (annotatedLayer (ascii "2.root.json") (digestOf 97)) exampleHash
    { Size := .ok 3, Uncompressed := .ok ⟨[1, 2, 3], none⟩ } 3 [1, 2, 3]
    ((Contains_eq_false_iff _ _).1 (by decide)) (by decide) (by decide) (Or.inr ⟨rfl, rfl⟩)
    rfl rfl (by decide) (by decide) (by decide) rfl rfl (by decide) rfl (by decide) (by decide)

end Fetcher
